import Mathlib

/-!
A verification development for the feint language core: a shallow
embedding of the instruction set, the stack virtual machine, the
compiler visitor, the operator-precedence table and the number scanner,
together with theorems settling the frozen specification claims.

Sources embedded:
- the VM interpreter loop, call handling and scope-exit algorithm
  (src/vm/vm.rs);
- the compiler visitor (src/compiler/compiler.rs);
- the Int object capabilities (src/types/int.rs);
- namespaces (src/types/namespace.rs);
- operator precedences (src/parser/precedence.rs) and the infix loop
  of the parser (src/parser/parser.rs);
- the number scanner (src/scanner/scanner.rs).

The enum declarations for the full-language instruction set, tokens,
AST and the RuntimeContext/ScopeTree helpers are not present in the
source tree (only draft variants are); their shapes are pinned by the
exhaustive matches and call sites in the files above and, where noted,
by the specification text. Floating point objects are omitted: no
claim touches float semantics, and f64 is not shallowly embeddable.
-/

namespace Feint

/-! ## Operators (util/operators.rs; variant list pinned by vm.rs and
compiler.rs matches and the spec opcode catalog) -/

inductive UnaryOperator where
  | plus
  | negate
  | asBool
  | not
deriving DecidableEq, Repr

inductive BinaryOperator where
  | pow
  | mul
  | div
  | floorDiv
  | mod
  | add
  | sub
  | addEqual
  | subEqual
  | isEqual
  | is
  | notEqual
  | and
  | or
  | lessThan
  | lessThanOrEqual
  | greaterThan
  | greaterThanOrEqual
  | dot
  | assign
deriving DecidableEq, Repr

/-! ## Instruction set (vm/inst.rs full-language variant; shape pinned
by the exhaustive match in VM::execute and the pushes in compiler.rs) -/

inductive Inst where
  | noOp
  | truncate (size : Nat)
  | loadConst (index : Nat)
  | scopeStart
  | scopeEnd
  | declareVar (name : String)
  | assignVar (name : String)
  | loadVar (name : String)
  | jump (addr : Nat) (scopeExitCount : Nat)
  | jumpIf (addr : Nat) (scopeExitCount : Nat)
  | jumpIfNot (addr : Nat) (scopeExitCount : Nat)
  | jumpIfElse (ifAddr : Nat) (elseAddr : Nat) (scopeExitCount : Nat)
  | unaryOp (op : UnaryOperator)
  | binaryOp (op : BinaryOperator)
  | makeString (n : Nat)
  | makeTuple (n : Nat)
  | call (n : Nat)
  | ret
  | placeholder (addr : Nat) (inner : Inst) (message : String)
  | breakPlaceholder (addr : Nat) (depth : Nat)
  | continuePlaceholder (addr : Nat) (depth : Nat)
  | halt (code : Nat)
  | haltTop
deriving DecidableEq, Repr

/-! ## Objects

Variants from the spec data model and the capability dispatch in
vm.rs/int.rs. `Float` is omitted (see the header). A builtin function
carries an index into the native catalog `callNative` below instead of
a closure, so that `Obj` stays a plain inductive. BigInt is `Int`. -/

mutual
inductive Obj where
  | nil
  | bool (b : Bool)
  | int (value : Int)
  | str (value : String)
  | tuple (items : List Obj)
  | func (f : Fn)
  | builtinFunc (name : String) (params : Option (List String)) (implId : Nat)

inductive Fn where
  | mk (name : String) (params : Option (List String)) (chunk : List Inst)
end

def Fn.name : Fn → String
  | .mk n _ _ => n

def Fn.params : Fn → Option (List String)
  | .mk _ p _ => p

def Fn.chunk : Fn → List Inst
  | .mk _ _ c => c

/-- `Object::int_val` (ObjectExt): `Some` exactly for `Int`. -/
def Obj.intVal : Obj → Option Int
  | .int z => some z
  | _ => none

/-- `Object::str_val` (ObjectExt): `Some` exactly for `Str`. -/
def Obj.strVal : Obj → Option String
  | .str s => some s
  | _ => none

/-! ## Runtime errors (vm/result.rs full variant; kinds listed in the
spec and matched in exe.rs) -/

inductive RuntimeErrKind where
  | emptyStack
  | notEnoughValuesOnStack (n : Nat)
  | nameErr (message : String)
  | typeErr (message : String)
  | attrDoesNotExist (typeName : String) (name : String)
  | notCallable (obj : Obj)
  | expectedVar (message : String)

/-- A VM-level failure: either a typed runtime error or a Rust panic
(index out of bounds, unwrap on empty, the explicit panics in
`exit_scopes`, `assert!`s). -/
inductive ExecErr where
  | runtime (kind : RuntimeErrKind)
  | panicked (message : String)

/-! ## Namespaces (types/namespace.rs)

`HashMap<String, ObjectRef>` is modelled as an association list where
insertion replaces an existing key. -/

abbrev NamespaceM := List (String × Obj)

def nsGetVar (ns : NamespaceM) (name : String) : Option Obj :=
  (ns.find? (fun p => p.1 = name)).map (fun p => p.2)

/-- `HashMap::insert`: replace the binding if present, else add it. -/
def nsInsert (ns : NamespaceM) (name : String) (obj : Obj) : NamespaceM :=
  if ns.any (fun p => p.1 = name) then
    ns.map (fun p => if p.1 = name then (name, obj) else p)
  else
    (name, obj) :: ns

/-- `Namespace::add_var`: add a var, setting its initial value to nil. -/
def nsAddVar (ns : NamespaceM) (name : String) : NamespaceM :=
  nsInsert ns name Obj.nil

/-- `Namespace::set_var`: set only if present; the Bool reports success. -/
def nsSetVar (ns : NamespaceM) (name : String) (obj : Obj) : Bool × NamespaceM :=
  if ns.any (fun p => p.1 = name) then (true, nsInsert ns name obj)
  else (false, ns)

/-! ## RuntimeContext

Modelled from the spec: vm/context.rs is not in the source tree. The
spec fixes constants pool slots 0/1/2 as nil/true/false, a stack of
namespaces, lookup top-down (depth 0 = innermost) and declaration in
the innermost namespace; the operation names and result shapes are
pinned by their call sites in vm.rs and compiler.rs. -/

structure RuntimeContext where
  constants : List Obj
  namespaces : List NamespaceM

/-- The fresh context: reserved constants nil/true/false and one
global namespace. -/
def RuntimeContext.default : RuntimeContext :=
  { constants := [Obj.nil, Obj.bool true, Obj.bool false], namespaces := [[]] }

def RuntimeContext.getConst (ctx : RuntimeContext) (index : Nat) :
    Except RuntimeErrKind Obj :=
  match ctx.constants[index]? with
  | some obj => .ok obj
  | none => .error (.nameErr "constant index out of bounds")

def RuntimeContext.addConst (ctx : RuntimeContext) (obj : Obj) :
    Nat × RuntimeContext :=
  (ctx.constants.length, { ctx with constants := ctx.constants ++ [obj] })

/-- Push a fresh innermost namespace. -/
def RuntimeContext.enterScope (ctx : RuntimeContext) : RuntimeContext :=
  { ctx with namespaces := [] :: ctx.namespaces }

/-- Pop `count` namespaces. -/
def RuntimeContext.exitScopes (ctx : RuntimeContext) (count : Nat) :
    RuntimeContext :=
  { ctx with namespaces := ctx.namespaces.drop count }

def RuntimeContext.getVarInCurrentNamespace (ctx : RuntimeContext)
    (name : String) : Option Obj :=
  match ctx.namespaces with
  | [] => none
  | ns :: _ => nsGetVar ns name

/-- `declare_var`: create the name (bound to nil) in the innermost
namespace. -/
def RuntimeContext.declareVar (ctx : RuntimeContext) (name : String) :
    RuntimeContext :=
  match ctx.namespaces with
  | [] => ctx
  | ns :: rest => { ctx with namespaces := nsAddVar ns name :: rest }

/-- Index (from the top) of the first namespace binding `name`. -/
def RuntimeContext.getVarDepth (ctx : RuntimeContext) (name : String) :
    Except RuntimeErrKind Nat :=
  match ctx.namespaces.findIdx? (fun ns => (nsGetVar ns name).isSome) with
  | some depth => .ok depth
  | none => .error (.nameErr ("name not found: " ++ name))

def RuntimeContext.getVarAtDepth (ctx : RuntimeContext) (depth : Nat)
    (name : String) : Except RuntimeErrKind Obj :=
  match ctx.namespaces[depth]? with
  | some ns =>
    match nsGetVar ns name with
    | some obj => .ok obj
    | none => .error (.nameErr ("name not found at depth: " ++ name))
  | none => .error (.nameErr ("namespace depth out of range: " ++ name))

def RuntimeContext.assignVarAtDepth (ctx : RuntimeContext) (depth : Nat)
    (name : String) (obj : Obj) : Except RuntimeErrKind RuntimeContext :=
  match ctx.namespaces[depth]? with
  | some ns =>
    match nsSetVar ns name obj with
    | (true, ns) => .ok { ctx with namespaces := ctx.namespaces.set depth ns }
    | (false, _) => .error (.nameErr ("cannot assign, name not declared: " ++ name))
  | none => .error (.nameErr ("namespace depth out of range: " ++ name))

/-- `assign_var`: set the nearest (top-down) existing binding and
return its depth. -/
def RuntimeContext.assignVar (ctx : RuntimeContext) (name : String)
    (obj : Obj) : Except RuntimeErrKind (Nat × RuntimeContext) :=
  match ctx.namespaces.findIdx? (fun ns => (nsGetVar ns name).isSome) with
  | some depth =>
    (ctx.assignVarAtDepth depth name obj).map (fun ctx => (depth, ctx))
  | none => .error (.nameErr ("cannot assign, name not declared: " ++ name))

/-- `declare_and_assign_var`: bind in the innermost namespace. -/
def RuntimeContext.declareAndAssignVar (ctx : RuntimeContext)
    (name : String) (obj : Obj) : RuntimeContext :=
  match ctx.namespaces with
  | [] => ctx
  | ns :: rest => { ctx with namespaces := nsInsert ns name obj :: rest }

/-! ## Object capabilities

`Int` capabilities are translated from types/int.rs. The trait files
for the other builtin types are not in the source tree; their arms are
modelled conservatively (they raise `TypeErr`) and are exercised by no
claim. Paths that would produce a `Float` (true division, floor
division via f64, Int^Float) are likewise cut off with a `TypeErr`
since floats are not embedded. -/

/-- `as_bool`. For `Int` (int.rs): `Ok(self.value().is_zero())` —
zero is true, nonzero is false. The canonical `true`/`false` objects
report their own value. -/
def Obj.asBool : Obj → Except ExecErr Bool
  | .bool b => .ok b
  | .int z => .ok (decide (z = 0))
  | _ => .error (.runtime (.typeErr "as_bool not supported"))

/-- `not` (Object trait default): boolean negation of `as_bool`. -/
def Obj.notOp (a : Obj) : Except ExecErr Bool :=
  (a.asBool).map (fun b => !b)

/-- `negate` (int.rs): `Ok(ctx.builtins.new_int(-self.value()))`. -/
def Obj.negate : Obj → Except ExecErr Obj
  | .int z => .ok (.int (-z))
  | _ => .error (.runtime (.typeErr "negate not supported"))

def Obj.addOp : Obj → Obj → Except ExecErr Obj
  | .int a, .int b => .ok (.int (a + b))
  | _, _ => .error (.runtime (.typeErr "Could not add operands"))

def Obj.subOp : Obj → Obj → Except ExecErr Obj
  | .int a, .int b => .ok (.int (a - b))
  | _, _ => .error (.runtime (.typeErr "Could not subtract operands"))

def Obj.mulOp : Obj → Obj → Except ExecErr Obj
  | .int a, .int b => .ok (.int (a * b))
  | _, _ => .error (.runtime (.typeErr "Could not multiply operands"))

/-- `%` on BigInt is the truncated remainder; `% 0` panics. -/
def Obj.modOp : Obj → Obj → Except ExecErr Obj
  | .int a, .int b =>
    if b = 0 then .error (.panicked "attempt to calculate the remainder with a divisor of zero")
    else .ok (.int (Int.tmod a b))
  | _, _ => .error (.runtime (.typeErr "Could not divide operands"))

/-- `pow` (int.rs): `base.pow(exp.to_u32().unwrap())` — a negative or
over-large exponent panics on the unwrap. -/
def Obj.powOp : Obj → Obj → Except ExecErr Obj
  | .int a, .int b =>
    if 0 ≤ b ∧ b ≤ 4294967295 then .ok (.int (a ^ b.toNat))
    else .error (.panicked "unwrap on None in Int::pow")
  | _, _ => .error (.runtime (.typeErr "Could not raise operands"))

/-- `div`/`floor_div` (int.rs) go through f64; floats are not
embedded, so these arms are cut off. No claim exercises them. -/
def Obj.divOp : Obj → Obj → Except ExecErr Obj
  | _, _ => .error (.runtime (.typeErr "Float division not modelled"))

def Obj.floorDivOp : Obj → Obj → Except ExecErr Obj
  | _, _ => .error (.runtime (.typeErr "Float floor division not modelled"))

/-- `is_equal`. For `Int` (int.rs) it is value equality; the other
variants are modelled as structural equality on primitives. -/
def Obj.isEqualOp : Obj → Obj → Bool
  | .int a, .int b => decide (a = b)
  | .nil, .nil => true
  | .bool a, .bool b => a == b
  | .str a, .str b => a == b
  | _, _ => false

/-- `is` compares object identity. Identity is not shallowly
embeddable; only the canonical singletons (nil, true, false) are
modelled as identical, which matches the builtins factory. -/
def Obj.isOp : Obj → Obj → Bool
  | .nil, .nil => true
  | .bool a, .bool b => a == b
  | _, _ => false

/-- `less_than` (int.rs): `Ok(self.value() < rhs.value())` for Int. -/
def Obj.lessThanOp : Obj → Obj → Except ExecErr Bool
  | .int a, .int b => .ok (decide (a < b))
  | _, _ => .error (.runtime (.typeErr "Could not compare operands: <"))

/-- `greater_than` (int.rs): `Ok(self.value() > rhs.value())`. -/
def Obj.greaterThanOp : Obj → Obj → Except ExecErr Bool
  | .int a, .int b => .ok (decide (a > b))
  | _, _ => .error (.runtime (.typeErr "Could not compare operands: >"))

/-- `and`/`or` (Object trait, file absent): boolean combination of the
operands' `as_bool` values. -/
def Obj.andOp (a b : Obj) : Except ExecErr Bool := do
  let x ← a.asBool
  let y ← b.asBool
  return x && y

def Obj.orOp (a b : Obj) : Except ExecErr Bool := do
  let x ← a.asBool
  let y ← b.asBool
  return x || y

/-- Display rendering used by `MakeString`. int.rs and nil.rs print
the value and "nil"; the remaining Display impls are absent from the
source tree and are modelled with plain renderings. -/
def Obj.toDisplayString : Obj → String
  | .nil => "nil"
  | .bool b => if b then "true" else "false"
  | .int z => toString z
  | .str s => s
  | .tuple _ => "<tuple>"
  | .func f => f.name
  | .builtinFunc name _ _ => name

/-! ## Value stack and VM state (vm/vm.rs)

`Stack` (util/stack.rs, Vec-backed) is modelled as a list with the
top at the head. `truncate n` keeps the bottom `n` entries; `pop_n`
returns the popped entries deepest-first, as its use sites require
(`kinds[0]`/`objects[0]` is the entry pushed first). -/

inductive ValueStackKind where
  | constant (index : Nat)
  | var (depth : Nat) (name : String)
  | temp (obj : Obj)
  | returnVal (obj : Obj)

/-- `Vec::truncate`: keep the bottom `size` entries. -/
def stackTruncate {α : Type} (l : List α) (size : Nat) : List α :=
  l.drop (l.length - size)

/-- `Stack::pop_n`: pop `n` entries (`none` when fewer are present),
returning them deepest-first together with the remaining stack. -/
def stackPopN {α : Type} (l : List α) (n : Nat) : Option (List α × List α) :=
  if n ≤ l.length then some ((l.take n).reverse, l.drop n) else none

structure VmSt where
  ctx : RuntimeContext
  valueStack : List ValueStackKind
  scopeStack : List Nat

/-- `VM::get_obj`: resolve a value-stack entry to an object. -/
def VmSt.getObj (st : VmSt) : ValueStackKind → Except ExecErr Obj
  | .constant index => (st.ctx.getConst index).mapError .runtime
  | .var depth name => (st.ctx.getVarAtDepth depth name).mapError .runtime
  | .temp obj => .ok obj
  | .returnVal obj => .ok obj

/-- `VM::pop_obj`. -/
def VmSt.popObj (st : VmSt) : Except ExecErr (Obj × VmSt) :=
  match st.valueStack with
  | [] => .error (.runtime .emptyStack)
  | k :: rest =>
    (st.getObj k).map (fun obj => (obj, { st with valueStack := rest }))

/-- `VM::pop_n_obj`. -/
def VmSt.popNObjs (st : VmSt) (n : Nat) : Except ExecErr (List Obj × VmSt) :=
  match stackPopN st.valueStack n with
  | none => .error (.runtime (.notEnoughValuesOnStack n))
  | some (kinds, rest) =>
    let st := { st with valueStack := rest }
    (kinds.mapM st.getObj).map (fun objs => (objs, st))

/-- `VM::exit_scopes` (vm/vm.rs). For `count > 1`, `count - 1`
intermediate entries are dropped from both stacks first (a Vec
truncation whose subtraction would panic in a debug build if the
stacks were shorter). The top of the value stack is popped as the
scope's return value, the value stack is truncated to the size saved
on the scope stack, the return value is pushed back as a `Temp`, and
`count` namespaces are popped. The two explicit panics are the
source's. -/
def exitScopes (count : Nat) (st : VmSt) : Except ExecErr VmSt :=
  if count = 0 then .ok st
  else
    let dropCount := count - 1
    match
      (if count > 1 then
        if st.scopeStack.length < dropCount || st.valueStack.length < dropCount then
          Except.error (ExecErr.panicked "attempt to subtract with overflow")
        else
          Except.ok { st with scopeStack := st.scopeStack.drop dropCount,
                              valueStack := st.valueStack.drop dropCount }
      else Except.ok st) with
    | .error e => .error e
    | .ok st =>
      -- pop_obj, with its Result inspected only after the scope pop
      let returnVal : Option (Except ExecErr Obj) :=
        match st.valueStack with
        | [] => none
        | k :: _ => some (st.getObj k)
      let poppedVS := st.valueStack.drop 1
      match st.scopeStack with
      | [] => .error (.panicked "Scope stack unexpectedly empty when exiting scopes")
      | size :: restScopes =>
        let vs := stackTruncate poppedVS size
        match returnVal with
        | some (.ok obj) =>
          .ok { ctx := st.ctx.exitScopes count,
                valueStack := ValueStackKind.temp obj :: vs,
                scopeStack := restScopes }
        | _ => .error (.panicked "Stack unexpectedly empty when exiting scopes")

/-! ## The interpreter loop (VM::execute, vm/vm.rs)

The loop is modelled with explicit fuel; `fuelOut` is never a
statement about the program, only about the bound. The `Counts`
record is ghost instrumentation: `starts` is incremented exactly where
the source pushes onto the scope stack (the `ScopeStart` arm and the
user-function branch of `handle_call`) and `exits` exactly where the
source calls `exit_scopes(n)`, by `n`. No instruction inspects it, so
it cannot influence behaviour; it exists to state the scope-balance
property. -/

/-- Ghost counters for scope entries and exits. -/
structure Counts where
  starts : Nat
  exits : Nat
deriving DecidableEq

inductive VMRunState where
  | idle
  | halted (code : Nat)
deriving DecidableEq

inductive ExecRes where
  | ok (state : VMRunState) (st : VmSt) (c : Counts)
  | err (e : ExecErr)
  | fuelOut

/-- Outcome of one non-call instruction: transfer control or stop. -/
inductive StepOut where
  | goto (ip : Nat) (st : VmSt) (c : Counts)
  | done (state : VMRunState) (st : VmSt) (c : Counts)

/-- The state and counters carried by a step outcome. -/
def StepOut.stC : StepOut → VmSt × Counts
  | .goto _ st c => (st, c)
  | .done _ st c => (st, c)

/-- The native catalog backing `builtinFunc` objects. The builtin
function implementations are outside the specified core; this table
stands in for them (0: returns nothing, 1: echoes the args). -/
def callNative : Nat → List Obj → Option Obj
  | 0, _ => none
  | 1, args => some (Obj.tuple args)
  | _, _ => none

/-- `VM::check_call_args` (vm/vm.rs): with a fixed parameter list,
raise `TypeErr` on an arity mismatch and, when `bind`, bind parameter
names to arguments in the call scope; without a fixed list, when
`bind`, pack the args into a tuple bound to `$args`. -/
def checkCallArgs (st : VmSt) (name : String) (params : Option (List String))
    (args : List Obj) (bind : Bool) : Except ExecErr VmSt :=
  match params with
  | some ps =>
    let arity := ps.length
    let numArgs := args.length
    if numArgs ≠ arity then
      let ess := if arity = 1 then "" else "s"
      .error (.runtime (.typeErr
        (name ++ "() expected " ++ toString arity ++ " arg" ++ ess ++
          "; got " ++ toString numArgs)))
    else if bind then
      .ok { st with
            ctx := (ps.zip args).foldl
              (fun ctx p => ctx.declareAndAssignVar p.1 p.2) st.ctx }
    else .ok st
  | none =>
    if bind then
      .ok { st with ctx := st.ctx.declareAndAssignVar "$args" (.tuple args) }
    else .ok st

/-- One instruction of the interpreter loop, except `Call` (which
recurses and lives in `execute`). Each arm is translated from the
corresponding match arm of `VM::execute`. -/
def execStep (inst : Inst) (ip : Nat) (st : VmSt) (c : Counts) :
    Except ExecErr StepOut :=
  match inst with
  | .noOp => .ok (.goto (ip + 1) st c)
  | .truncate size =>
    .ok (.goto (ip + 1) { st with valueStack := stackTruncate st.valueStack size } c)
  | .loadConst index =>
    .ok (.goto (ip + 1) { st with valueStack := .constant index :: st.valueStack } c)
  | .scopeStart =>
    .ok (.goto (ip + 1)
      { st with scopeStack := st.valueStack.length :: st.scopeStack,
                ctx := st.ctx.enterScope }
      { c with starts := c.starts + 1 })
  | .scopeEnd =>
    match exitScopes 1 st with
    | .error e => .error e
    | .ok st => .ok (.goto (ip + 1) st { c with exits := c.exits + 1 })
  | .declareVar name =>
    let st :=
      if (st.ctx.getVarInCurrentNamespace name).isSome then st
      else { st with ctx := st.ctx.declareVar name }
    .ok (.goto (ip + 1) st c)
  | .assignVar name =>
    match st.popObj with
    | .error e => .error e
    | .ok (obj, st) =>
      match st.ctx.assignVar name obj with
      | .error e => .error (.runtime e)
      | .ok (depth, ctx) =>
        .ok (.goto (ip + 1)
          { st with ctx := ctx, valueStack := .var depth name :: st.valueStack } c)
  | .loadVar name =>
    match st.ctx.getVarDepth name with
    | .error e => .error (.runtime e)
    | .ok depth =>
      .ok (.goto (ip + 1)
        { st with valueStack := .var depth name :: st.valueStack } c)
  | .jump addr scopeExitCount =>
    match exitScopes scopeExitCount st with
    | .error e => .error e
    | .ok st => .ok (.goto addr st { c with exits := c.exits + scopeExitCount })
  | .jumpIf addr scopeExitCount =>
    match exitScopes scopeExitCount st with
    | .error e => .error e
    | .ok st =>
      let c := { c with exits := c.exits + scopeExitCount }
      match st.popObj with
      | .error e => .error e
      | .ok (obj, st) =>
        match obj.asBool with
        | .error e => .error e
        | .ok b => .ok (.goto (if b then addr else ip + 1) st c)
  | .jumpIfNot addr scopeExitCount =>
    match exitScopes scopeExitCount st with
    | .error e => .error e
    | .ok st =>
      let c := { c with exits := c.exits + scopeExitCount }
      match st.popObj with
      | .error e => .error e
      | .ok (obj, st) =>
        match obj.asBool with
        | .error e => .error e
        | .ok b => .ok (.goto (if b then ip + 1 else addr) st c)
  | .jumpIfElse ifAddr elseAddr scopeExitCount =>
    match exitScopes scopeExitCount st with
    | .error e => .error e
    | .ok st =>
      let c := { c with exits := c.exits + scopeExitCount }
      match st.popObj with
      | .error e => .error e
      | .ok (obj, st) =>
        match obj.asBool with
        | .error e => .error e
        | .ok b => .ok (.goto (if b then ifAddr else elseAddr) st c)
  | .unaryOp op =>
    match st.popObj with
    | .error e => .error e
    | .ok (a, st) =>
      match op with
      | .plus => .ok (.goto (ip + 1) { st with valueStack := .temp a :: st.valueStack } c)
      | .negate =>
        match a.negate with
        | .error e => .error e
        | .ok r => .ok (.goto (ip + 1) { st with valueStack := .temp r :: st.valueStack } c)
      | .asBool =>
        match a.asBool with
        | .error e => .error e
        | .ok b =>
          .ok (.goto (ip + 1)
            { st with valueStack := .temp (.bool b) :: st.valueStack } c)
      | .not =>
        match a.notOp with
        | .error e => .error e
        | .ok b =>
          .ok (.goto (ip + 1)
            { st with valueStack := .temp (.bool b) :: st.valueStack } c)
  | .binaryOp op =>
    match stackPopN st.valueStack 2 with
    | none => .error (.runtime (.notEnoughValuesOnStack 2))
    | some (kinds, rest) =>
      let aKind := kinds.headD (.temp .nil)
      let st := { st with valueStack := rest }
      match kinds.mapM st.getObj with
      | .error e => .error e
      | .ok objs =>
        let a := objs.headD .nil
        let b := (objs.drop 1).headD .nil
        match op with
        | .dot =>
          -- get_attr/get_item dispatch; the attribute files are
          -- absent from the source tree, the final error is faithful
          match b.strVal with
          | some name => .error (.runtime (.typeErr ("get_attr not modelled: " ++ name)))
          | none =>
            match b.intVal with
            | some _ => .error (.runtime (.typeErr "get_item not modelled"))
            | none => .error (.runtime (.typeErr "Not an attribute name or index"))
        | .addEqual =>
          match aKind with
          | .var depth name =>
            match a.addOp b with
            | .error e => .error e
            | .ok r =>
              match st.ctx.assignVarAtDepth depth name r with
              | .error e => .error (.runtime e)
              | .ok ctx =>
                .ok (.goto (ip + 1)
                  { st with ctx := ctx,
                            valueStack := .var depth name :: st.valueStack } c)
          | _ => .error (.runtime (.expectedVar "Binary op: +="))
        | .subEqual =>
          match aKind with
          | .var depth name =>
            match a.subOp b with
            | .error e => .error e
            | .ok r =>
              match st.ctx.assignVarAtDepth depth name r with
              | .error e => .error (.runtime e)
              | .ok ctx =>
                .ok (.goto (ip + 1)
                  { st with ctx := ctx,
                            valueStack := .var depth name :: st.valueStack } c)
          | _ => .error (.runtime (.expectedVar "Binary op: -="))
        | .pow => bindMath st ip c (a.powOp b)
        | .mul => bindMath st ip c (a.mulOp b)
        | .div => bindMath st ip c (a.divOp b)
        | .floorDiv => bindMath st ip c (a.floorDivOp b)
        | .mod => bindMath st ip c (a.modOp b)
        | .add => bindMath st ip c (a.addOp b)
        | .sub => bindMath st ip c (a.subOp b)
        | .isEqual => bindBool st ip c (.ok (a.isEqualOp b))
        | .is => bindBool st ip c (.ok (a.isOp b))
        | .notEqual => bindBool st ip c (.ok (!(a.isEqualOp b)))
        | .and => bindBool st ip c (a.andOp b)
        | .or => bindBool st ip c (a.orOp b)
        | .lessThan => bindBool st ip c (a.lessThanOp b)
        | .lessThanOrEqual =>
          bindBool st ip c ((a.lessThanOp b).map (fun r => r || a.isEqualOp b))
        | .greaterThan => bindBool st ip c (a.greaterThanOp b)
        | .greaterThanOrEqual =>
          bindBool st ip c ((a.greaterThanOp b).map (fun r => r || a.isEqualOp b))
        | .assign => .error (.panicked "unreachable binary operator in VM")
  | .makeString n =>
    match st.popNObjs n with
    | .error e => .error e
    | .ok (objs, st) =>
      let s := objs.foldl (fun acc obj => acc ++ obj.toDisplayString) ""
      .ok (.goto (ip + 1) { st with valueStack := .temp (.str s) :: st.valueStack } c)
  | .makeTuple n =>
    match st.popNObjs n with
    | .error e => .error e
    | .ok (objs, st) =>
      .ok (.goto (ip + 1)
        { st with valueStack := .temp (.tuple objs) :: st.valueStack } c)
  | .call _ => .error (.panicked "unreachable: Call is handled by the interpreter loop")
  | .ret => .ok (.goto (ip + 1) st c)
  | .placeholder _ _ _ => .ok (.done (.halted 255) st c)
  | .breakPlaceholder _ _ => .ok (.done (.halted 255) st c)
  | .continuePlaceholder _ _ => .ok (.done (.halted 255) st c)
  | .halt code => .ok (.done (.halted code) st c)
  | .haltTop =>
    match st.popObj with
    | .error e => .error e
    | .ok (obj, st) =>
      match obj.intVal with
      | some z =>
        -- int.to_u8().unwrap_or(255): the value when it fits in u8,
        -- otherwise 255
        .ok (.done (.halted (if 0 ≤ z ∧ z ≤ 255 then z.toNat else 255)) st c)
      | none => .ok (.done (.halted 0) st c)
where
  /-- Push a math result as a `Temp` and advance. -/
  bindMath (st : VmSt) (ip : Nat) (c : Counts) :
      Except ExecErr Obj → Except ExecErr StepOut
    | .error e => .error e
    | .ok r => .ok (.goto (ip + 1) { st with valueStack := .temp r :: st.valueStack } c)
  /-- Push a bool result as a `Temp` and advance. -/
  bindBool (st : VmSt) (ip : Nat) (c : Counts) :
      Except ExecErr Bool → Except ExecErr StepOut
    | .error e => .error e
    | .ok b =>
      .ok (.goto (ip + 1) { st with valueStack := .temp (.bool b) :: st.valueStack } c)

/-- `VM::execute`: run `chunk` from `ip`. Falling off the end of the
chunk yields `Idle`; `Halt`/`HaltTop`/unpatched placeholders yield
`Halted`; indexing past the end (as `&chunk[ip]` would) panics.

The `Call` arm is `VM::handle_call` inlined (the source factors it
into a method; it is inlined here so the recursion is structural on
the fuel): pop the callable and `n` args. A builtin is arity-checked
(`bind = false`: nothing is bound) and its native result (or nil)
pushed as a `ReturnVal`; a user function gets a fresh call scope,
`bind = true` argument binding, a recursive execution of its chunk
(whose Idle/Halted state is discarded, as the source's `?` only
propagates errors) and a closing `exit_scopes(1)`. -/
def execute (fuel : Nat) (chunk : List Inst) (ip : Nat) (st : VmSt)
    (c : Counts) : ExecRes :=
  match fuel with
  | 0 => .fuelOut
  | fuel + 1 =>
    match chunk[ip]? with
    | none => .err (.panicked "index out of bounds")
    | some (.call n) =>
      match st.popNObjs (n + 1) with
      | .error e => .err e
      | .ok (objects, st) =>
        match objects with
        | [] => .err (.panicked "unwrap on empty objects")
        | callable :: args =>
          match callable with
          | .builtinFunc name params implId =>
            match checkCallArgs st name params args false with
            | .error e => .err e
            | .ok st =>
              let returnVal := (callNative implId args).getD Obj.nil
              let st := { st with valueStack := .returnVal returnVal :: st.valueStack }
              if ip + 1 = chunk.length then .ok .idle st c
              else execute fuel chunk (ip + 1) st c
          | .func f =>
            let st := { st with scopeStack := st.valueStack.length :: st.scopeStack,
                                ctx := st.ctx.enterScope }
            let c := { c with starts := c.starts + 1 }
            match checkCallArgs st f.name f.params args true with
            | .error e => .err e
            | .ok st =>
              match execute fuel f.chunk 0 st c with
              | .ok _ st c =>
                match exitScopes 1 st with
                | .error e => .err e
                | .ok st =>
                  let c := { c with exits := c.exits + 1 }
                  if ip + 1 = chunk.length then .ok .idle st c
                  else execute fuel chunk (ip + 1) st c
              | .err e => .err e
              | .fuelOut => .fuelOut
          | _ => .err (.runtime (.notCallable callable))
    | some inst =>
      match execStep inst ip st c with
      | .error e => .err e
      | .ok (.done state st c) => .ok state st c
      | .ok (.goto ip st c) =>
        if ip = chunk.length then .ok .idle st c
        else execute fuel chunk ip st c

/-! ## AST (ast/ast.rs, full-language variant)

The node shapes are pinned by the pattern matches in compiler.rs and
the spec data model. Source locations are dropped: the compiler never
reads them. `ast::Func` also carries a display name the compiler
ignores (it names functions from the assignment hint instead). -/

inductive LiteralKind where
  | nil
  | bool (b : Bool)
  | ellipsis
  | int (value : Int)
  | str (value : String)

inductive IdentKind where
  | ident (name : String)
  | specialIdent (name : String)
  | typeIdent (name : String)

mutual
inductive Expr where
  | tuple (items : List Expr)
  | literal (l : LiteralKind)
  | formatString (items : List Expr)
  | ident (i : IdentKind)
  | block (b : StatementBlock)
  | conditional (branches : List (Expr × StatementBlock)) (default : Option StatementBlock)
  | loop (cond : Expr) (body : StatementBlock)
  | func (params : List String) (body : StatementBlock)
  | call (callable : Expr) (args : List Expr)
  | unaryOp (op : UnaryOperator) (operand : Expr)
  | binaryOp (a : Expr) (op : BinaryOperator) (b : Expr)

inductive Statement where
  | jump (name : String)
  | label (name : String) (e : Expr)
  | breakStmt (e : Expr)
  | continueStmt
  | expr (e : Expr)

inductive StatementBlock where
  | mk (statements : List Statement)
end

def StatementBlock.statements : StatementBlock → List Statement
  | .mk s => s

structure Program where
  statements : List Statement

/-- `Expr::is_ident`. -/
def Expr.isIdent : Expr → Option String
  | .ident (.ident name) => some name
  | _ => none

/-- `Expr::is_special_ident`. -/
def Expr.isSpecialIdent : Expr → Option String
  | .ident (.specialIdent name) => some name
  | _ => none

/-- `Expr::is_type_ident`. -/
def Expr.isTypeIdent : Expr → Option String
  | .ident (.typeIdent name) => some name
  | _ => none

/-- `Expr::is_true`: the condition is syntactically the literal `true`. -/
def Expr.isTrue : Expr → Bool
  | .literal (.bool true) => true
  | _ => false

/-! ## Compile errors (compiler/result.rs; kinds matched in exe.rs) -/

inductive CompErr where
  | unhandledExpr
  | labelNotFoundInScope (name : String)
  | cannotJumpOutOfFunc (name : String)
  | duplicateLabelInScope (name : String)
  | expectedIdent
  | cannotAssignSpecialIdent (name : String)
deriving DecidableEq

/-! ## Scope tree (compiler/scope.rs)

Modelled from the spec: compiler/scope.rs is not in the source tree.
The spec gives nodes `{kind, labels: name → address, jumps: list of
(name, patch address), children}` with parent pointers, a bottom-up
walk at compile completion, and label search that stops at `Func`
boundaries; the operation names and uses are pinned by compiler.rs.
Nodes live in an arena; a child's index is strictly greater than its
parent's. -/

inductive ScopeKind where
  | module
  | block
  | func
deriving DecidableEq

structure Scope where
  kind : ScopeKind
  parent : Nat
  labels : List (String × Nat)
  jumps : List (String × Nat)

structure ScopeTree where
  nodes : List Scope
  pointer : Nat

def ScopeTree.new : ScopeTree :=
  { nodes := [⟨.module, 0, [], []⟩], pointer := 0 }

/-- Add a nested scope under the current one and point at it. -/
def ScopeTree.add (tree : ScopeTree) (kind : ScopeKind) : ScopeTree :=
  { nodes := tree.nodes ++ [⟨kind, tree.pointer, [], []⟩],
    pointer := tree.nodes.length }

/-- Move up to the parent of the current scope. -/
def ScopeTree.moveUp (tree : ScopeTree) : ScopeTree :=
  { tree with pointer := ((tree.nodes[tree.pointer]?).map Scope.parent).getD 0 }

def ScopeTree.inGlobalScope (tree : ScopeTree) : Bool :=
  tree.pointer = 0

/-- `add_label`: record `name → addr` in the current scope; the first
component is the previously recorded address, if any (a duplicate). -/
def ScopeTree.addLabel (tree : ScopeTree) (name : String) (addr : Nat) :
    Option Nat × ScopeTree :=
  match tree.nodes[tree.pointer]? with
  | none => (none, tree)
  | some node =>
    let prev := (node.labels.find? (fun p => p.1 = name)).map (fun p => p.2)
    let labels :=
      if prev.isSome then
        node.labels.map (fun p => if p.1 = name then (name, addr) else p)
      else node.labels ++ [(name, addr)]
    let node := { node with labels := labels }
    (prev, { tree with nodes := tree.nodes.set tree.pointer node })

/-- `add_jump`: register a patch address for `name` in the current scope. -/
def ScopeTree.addJump (tree : ScopeTree) (name : String) (addr : Nat) : ScopeTree :=
  match tree.nodes[tree.pointer]? with
  | none => tree
  | some node =>
    let node := { node with jumps := node.jumps ++ [(name, addr)] }
    { tree with nodes := tree.nodes.set tree.pointer node }

/-- Nesting depth of a scope (ancestor count). -/
def ScopeTree.depthOf (tree : ScopeTree) (idx : Nat) : Nat :=
  match tree.nodes[idx]? with
  | none => 0
  | some node =>
    if _h : node.parent < idx then tree.depthOf node.parent + 1 else 0
termination_by idx

/-- `Scope::find_label`: search the scope, then its ancestors,
stopping at a `Func` boundary; the result is the label's address and
nesting depth. -/
def ScopeTree.findLabel (tree : ScopeTree) (idx : Nat) (name : String) :
    Option (Nat × Nat) :=
  match tree.nodes[idx]? with
  | none => none
  | some node =>
    match node.labels.find? (fun p => p.1 = name) with
    | some p => some (p.2, tree.depthOf idx)
    | none =>
      if node.kind = .func then none
      else if _h : node.parent < idx then tree.findLabel node.parent name
      else none
termination_by idx

/-! ## The compiler visitor (compiler/compiler.rs) -/

structure Visitor where
  ctx : RuntimeContext
  chunk : List Inst
  scopeTree : ScopeTree
  scopeDepth : Nat
  hasMain : Bool

def Visitor.new (ctx : RuntimeContext) : Visitor :=
  { ctx := ctx, chunk := [], scopeTree := ScopeTree.new,
    scopeDepth := 0, hasMain := false }

def Visitor.pushInst (v : Visitor) (inst : Inst) : Visitor :=
  { v with chunk := v.chunk ++ [inst] }

def Visitor.pushConst (v : Visitor) (index : Nat) : Visitor :=
  v.pushInst (.loadConst index)

/-- `add_const`: append to the shared constants pool and load it. -/
def Visitor.addConst (v : Visitor) (obj : Obj) : Visitor :=
  let p := v.ctx.addConst obj
  ({ v with ctx := p.2 }).pushConst p.1

def Visitor.enterScope (v : Visitor) (kind : ScopeKind) : Visitor :=
  { v with scopeTree := v.scopeTree.add kind, scopeDepth := v.scopeDepth + 1 }

def Visitor.exitScope (v : Visitor) : Visitor :=
  { v with scopeTree := v.scopeTree.moveUp, scopeDepth := v.scopeDepth - 1 }

def Visitor.addJump (v : Visitor) (name : String) (addr : Nat) : Visitor :=
  { v with scopeTree := v.scopeTree.addJump name addr }

/-- The per-scope patching inside `fix_jumps`. -/
def fixJumpList (tree : ScopeTree) (idx : Nat) (kind : ScopeKind)
    (chunk : List Inst) : List (String × Nat) → Except CompErr (List Inst)
  | [] => .ok chunk
  | (name, jumpAddr) :: rest =>
    match tree.findLabel idx name with
    | some (labelAddr, labelDepth) =>
      fixJumpList tree idx kind
        (chunk.set jumpAddr (.jump labelAddr (tree.depthOf idx - labelDepth))) rest
    | none =>
      if kind = .func then .error (.cannotJumpOutOfFunc name)
      else .error (.labelNotFoundInScope name)

/-- The scope iteration of `fix_jumps` over a list of scope indices. -/
def fixJumpsScopes (tree : ScopeTree) (chunk : List Inst) :
    List Nat → Except CompErr (List Inst)
  | [] => .ok chunk
  | idx :: rest =>
    match tree.nodes[idx]? with
    | none => fixJumpsScopes tree chunk rest
    | some node =>
      match fixJumpList tree idx node.kind chunk node.jumps with
      | .error e => .error e
      | .ok chunk => fixJumpsScopes tree chunk rest

/-- `fix_jumps`: walk the scope tree bottom-up (children were created
after their parents, so reverse creation order visits leaves first),
patching each registered jump to `Jump(label_addr, jump_depth -
label_depth)`; an unresolved jump is `CannotJumpOutOfFunc` when its
scope is a function, else `LabelNotFoundInScope`. -/
def Visitor.fixJumps (v : Visitor) : Except CompErr Visitor :=
  match fixJumpsScopes v.scopeTree v.chunk
      (List.range v.scopeTree.nodes.length).reverse with
  | .error e => .error e
  | .ok chunk => .ok { v with chunk := chunk }

/-- The break/continue scan at the end of `visit_loop`: over the
emitted range, rewrite each recorded placeholder address to a jump out
of (break) or back to the top of (continue) the loop, carrying the
scope-depth difference. -/
def patchLoopRange (loopAddr afterAddr loopScopeDepth : Nat)
    (chunk : List Inst) : List Inst :=
  (List.range' loopAddr (afterAddr - loopAddr)).foldl
    (fun (ch : List Inst) (addr : Nat) =>
      match ch[addr]? with
      | some (.breakPlaceholder breakAddr depth) =>
        ch.set breakAddr (.jump afterAddr (depth - loopScopeDepth))
      | some (.continuePlaceholder continueAddr depth) =>
        ch.set continueAddr (.jump loopAddr (depth - loopScopeDepth))
      | _ => ch)
    chunk

/-- `visit_literal`: nil/true/false load reserved constants 0/1/2,
Int/Str literals are added to the pool and loaded, and `Ellipsis`
falls through emitting nothing (the source arm is `Kind::Ellipsis =>
()` under a `TODO` comment). -/
def visitLiteral (l : LiteralKind) (v : Visitor) : Except CompErr Visitor :=
  match l with
  | .nil => .ok (v.pushConst 0)
  | .bool true => .ok (v.pushConst 1)
  | .bool false => .ok (v.pushConst 2)
  | .ellipsis => .ok v
  | .int value => .ok (v.addConst (.int value))
  | .str value => .ok (v.addConst (.str value))

mutual
/-- `visit_statements`. -/
def visitStatements : List Statement → Visitor → Except CompErr Visitor
  | [], v => .ok v
  | statement :: rest, v =>
    match visitStatement statement v with
    | .error e => .error e
    | .ok v => visitStatements rest v
termination_by l => sizeOf l

/-- `visit_statement`. -/
def visitStatement : Statement → Visitor → Except CompErr Visitor
  | .jump name, v =>
    let jumpAddr := v.chunk.length
    let v := v.pushInst
      (.placeholder 0 (.jump 0 0) "Jump address not set to label address")
    .ok (v.addJump name jumpAddr)
  | .label name e, v =>
    let addr := v.chunk.length
    match visitExpr e none v with
    | .error err => .error err
    | .ok v =>
      match v.scopeTree.addLabel name addr with
      | (some _, _) => .error (.duplicateLabelInScope name)
      | (none, tree) => .ok { v with scopeTree := tree }
  | .breakStmt e, v =>
    match visitExpr e none v with
    | .error err => .error err
    | .ok v => .ok (v.pushInst (.breakPlaceholder v.chunk.length v.scopeDepth))
  | .continueStmt, v =>
    let v := v.pushInst (.loadConst 0)
    .ok (v.pushInst (.continuePlaceholder v.chunk.length v.scopeDepth))
  | .expr e, v => visitExpr e none v
termination_by s => sizeOf s

/-- `visit_exprs`: left to right. -/
def visitExprs : List Expr → Visitor → Except CompErr Visitor
  | [], v => .ok v
  | e :: rest, v =>
    match visitExpr e none v with
    | .error err => .error err
    | .ok v => visitExprs rest v
termination_by l => sizeOf l

/-- `visit_expr`. The `name` argument is the assignment hint used to
name function literals. -/
def visitExpr : Expr → Option String → Visitor → Except CompErr Visitor
  | .tuple items, _, v =>
    match visitExprs items v with
    | .error err => .error err
    | .ok v => .ok (v.pushInst (.makeTuple items.length))
  | .literal l, _, v => visitLiteral l v
  | .formatString items, _, v =>
    match visitExprs items v with
    | .error err => .error err
    | .ok v => .ok (v.pushInst (.makeString items.length))
  | .ident i, _, v =>
    match i with
    | .ident name => .ok (v.pushInst (.loadVar name))
    | .specialIdent name => .ok (v.pushInst (.loadVar name))
    | .typeIdent name => .ok (v.pushInst (.loadVar name))
  | .block b, _, v => visitBlock b v
  | .conditional branches default, _, v => visitConditional branches default v
  | .loop cond body, _, v => visitLoop cond body v
  | .func params body, name, v => visitFunc params body name v
  | .call callable args, _, v =>
    match visitExpr callable none v with
    | .error err => .error err
    | .ok v =>
      match visitExprs args v with
      | .error err => .error err
      | .ok v => .ok (v.pushInst (.call args.length))
  | .unaryOp op operand, _, v =>
    match visitExpr operand none v with
    | .error err => .error err
    | .ok v => .ok (v.pushInst (.unaryOp op))
  | .binaryOp a op b, _, v =>
    match op with
    | .dot => visitGetAttr a b v
    | .assign => visitAssignment a b v
    | _ =>
      match visitExpr a none v with
      | .error err => .error err
      | .ok v =>
        match visitExpr b none v with
        | .error err => .error err
        | .ok v => .ok (v.pushInst (.binaryOp op))
termination_by e _ _ => sizeOf e

/-- `visit_get_attr`: evaluate the object, then the name (an
identifier becomes a string literal, anything else is evaluated), then
`BinaryOp(Dot)`. -/
def visitGetAttr (objExpr nameExpr : Expr) (v : Visitor) :
    Except CompErr Visitor :=
  match visitExpr objExpr none v with
  | .error err => .error err
  | .ok v =>
    let named : Except CompErr Visitor :=
      match nameExpr.isIdent with
      | some name => visitLiteral (.str name) v
      | none =>
        match nameExpr.isTypeIdent with
        | some name => visitLiteral (.str name) v
        | none => visitExpr nameExpr none v
    match named with
    | .error err => .error err
    | .ok v => .ok (v.pushInst (.binaryOp .dot))
termination_by sizeOf objExpr + sizeOf nameExpr + 1

/-- `visit_assignment`: the target must be an identifier, or the
special `$main` at module scope; emit `DeclareVar`, the value (with
the name hint), `AssignVar`. -/
def visitAssignment (nameExpr valueExpr : Expr) (v : Visitor) :
    Except CompErr Visitor :=
  let nameRes : Except CompErr String :=
    match nameExpr.isIdent with
    | some name => .ok name
    | none =>
      match nameExpr.isSpecialIdent with
      | some name =>
        if name = "$main" && v.scopeTree.inGlobalScope then .ok name
        else .error (.cannotAssignSpecialIdent name)
      | none => .error .expectedIdent
  match nameRes with
  | .error err => .error err
  | .ok name =>
    let v := v.pushInst (.declareVar name)
    match visitExpr valueExpr (some name) v with
    | .error err => .error err
    | .ok v => .ok (v.pushInst (.assignVar name))
termination_by sizeOf nameExpr + sizeOf valueExpr + 1

/-- `visit_block`: `ScopeStart`, enter a compile scope, the
statements, `ScopeEnd`, exit. -/
def visitBlock : StatementBlock → Visitor → Except CompErr Visitor
  | .mk statements, v =>
    let v := (v.pushInst .scopeStart).enterScope .block
    match visitStatements statements v with
    | .error e => .error e
    | .ok v => .ok ((v.pushInst .scopeEnd).exitScope)
termination_by b _ => sizeOf b

/-- The per-branch loop of `visit_conditional`, accumulating the
addresses of the branch jump-out placeholders. -/
def visitCondBranches :
    List (Expr × StatementBlock) → List Nat → Visitor →
    Except CompErr (List Nat × Visitor)
  | [], acc, v => .ok (acc, v)
  | (e, blk) :: rest, acc, v =>
    match visitExpr e none v with
    | .error err => .error err
    | .ok v =>
      let jumpIndex := v.chunk.length
      let v := v.pushInst
        (.placeholder jumpIndex (.jumpIfElse 0 0 0) "Branch condition jump not set")
      let blockAddr := jumpIndex + 1
      match visitBlock blk v with
      | .error err => .error err
      | .ok v =>
        let jumpOutAddr := v.chunk.length
        let v := v.pushInst
          (.placeholder jumpOutAddr (.jump 0 0) "Branch jump out not set")
        let nextAddr := v.chunk.length
        let v := { v with
          chunk := v.chunk.set jumpIndex (.jumpIfElse blockAddr nextAddr 0) }
        visitCondBranches rest (acc ++ [jumpOutAddr]) v
termination_by l _ _ => sizeOf l

/-- `visit_conditional`: branches with back-patched `JumpIfElse` and
jump-outs, then the default block (a `LoadConst nil` when there is
none), then patch the jump-outs to the address after the suite. The
source inspects `default` after compiling the branches; compilation is
pure, so the case split on `default` is hoisted to the top here (the
branch compilation is identical in both arms). -/
def visitConditional (branches : List (Expr × StatementBlock))
    (default : Option StatementBlock) (v : Visitor) :
    Except CompErr Visitor :=
  match default with
  | some blk =>
    match visitCondBranches branches [] v with
    | .error e => .error e
    | .ok p =>
      match visitBlock blk p.2 with
      | .error e => .error e
      | .ok v =>
        let afterAddr := v.chunk.length
        .ok { v with
          chunk := p.1.foldl
            (fun (ch : List Inst) addr => ch.set addr (.jump afterAddr 0)) v.chunk }
  | none =>
    match visitCondBranches branches [] v with
    | .error e => .error e
    | .ok p =>
      let v := p.2.pushInst (.loadConst 0)
      let afterAddr := v.chunk.length
      .ok { v with
        chunk := p.1.foldl
          (fun (ch : List Inst) addr => ch.set addr (.jump afterAddr 0)) v.chunk }
termination_by sizeOf branches + sizeOf default
decreasing_by
  all_goals simp_wf
  all_goals simp_arith

/-- `visit_loop`: when the condition is syntactically `true`, a `NoOp`
replaces the condition evaluation; otherwise the condition and a
`JumpIfNot` placeholder. Then the body, the backward `Jump` to the
loop address, the back-patch of the jump-out, and the break/continue
scan over the emitted range. -/
def visitLoop (cond : Expr) (body : StatementBlock) (v : Visitor) :
    Except CompErr Visitor :=
  let loopScopeDepth := v.scopeDepth
  let loopAddr := v.chunk.length
  if cond.isTrue then
    match visitBlock body (v.pushInst .noOp) with
    | .error e => .error e
    | .ok v =>
      let v := v.pushInst (.jump loopAddr 0)
      let afterAddr := v.chunk.length
      .ok { v with
        chunk := patchLoopRange loopAddr afterAddr loopScopeDepth v.chunk }
  else
    match visitExpr cond none v with
    | .error e => .error e
    | .ok v =>
      let jumpOutIndex := v.chunk.length
      let v := v.pushInst
        (.placeholder jumpOutIndex (.jumpIfNot 0 0) "Jump-out for loop not set")
      match visitBlock body v with
      | .error e => .error e
      | .ok v =>
        let v := v.pushInst (.jump loopAddr 0)
        let afterAddr := v.chunk.length
        let v := { v with
          chunk := v.chunk.set jumpOutIndex (.jumpIfNot afterAddr 0) }
        .ok { v with
          chunk := patchLoopRange loopAddr afterAddr loopScopeDepth v.chunk }
termination_by sizeOf cond + sizeOf body
decreasing_by
  all_goals simp_wf
  all_goals first
    | (cases cond <;> simp_arith)
    | (cases body; simp_arith)

/-- `visit_func`: compile the function body with a nested visitor
sharing the constants pool. `has_main` on the enclosing visitor is
*assigned* (not or-ed) whenever a name hint is present: `name ==
"$main" && in_global_scope`. The body is wrapped `ScopeStart` …
(`LoadConst 0` if the last statement was not an expression) `Return`
`ScopeEnd`, jumps are fixed, and the resulting chunk is wrapped in a
Func object added to the enclosing constants. -/
def visitFunc (params : List String) :
    StatementBlock → Option String → Visitor → Except CompErr Visitor
  | .mk statements, name, v =>
    let fv := Visitor.new v.ctx
    let fname := match name with | some n => n | none => "<anonymous>"
    let hasMain :=
      match name with
      | some n => decide (n = "$main") && v.scopeTree.inGlobalScope
      | none => v.hasMain
    let returnNil :=
      match statements.getLast? with
      | some (.expr _) => false
      | some _ => true
      | none => true
    let fv := (fv.pushInst .scopeStart).enterScope .func
    match visitStatements statements fv with
    | .error e => .error e
    | .ok fv =>
      match fv.fixJumps with
      | .error e => .error e
      | .ok fv =>
        let fv := if returnNil then fv.pushInst (.loadConst 0) else fv
        let fv := ((fv.pushInst .ret).pushInst .scopeEnd).exitScope
        let funcObj := Obj.func (.mk fname (some params) fv.chunk)
        let v := { v with ctx := fv.ctx, hasMain := hasMain }
        .ok (v.addConst funcObj)
termination_by b _ _ => sizeOf b
end

/-- `visit_program`: the top-level statements, `fix_jumps`, then
module finalization: when `has_main`, `LoadVar "$main"`, two integer
argv placeholder constants (100 and 10), `Call 2`, `Return`,
`HaltTop`; otherwise `Halt 0`. -/
def visitProgram (program : Program) (v : Visitor) : Except CompErr Visitor :=
  match visitStatements program.statements v with
  | .error e => .error e
  | .ok v =>
    match v.fixJumps with
    | .error e => .error e
    | .ok v =>
      if v.hasMain then
        let v := v.pushInst (.loadVar "$main")
        let v := v.addConst (.int 100)
        let v := v.addConst (.int 10)
        .ok (((v.pushInst (.call 2)).pushInst .ret).pushInst .haltTop)
      else
        .ok (v.pushInst (.halt 0))

/-- `compile`: run the visitor on a fresh module scope and return the
chunk together with the (shared, mutated) runtime context. -/
def compile (program : Program) (ctx : RuntimeContext) :
    Except CompErr (List Inst × RuntimeContext) :=
  (visitProgram program (Visitor.new ctx)).map (fun v => (v.chunk, v.ctx))

/-! ## Tokens (scanner/token.rs, full-language variant)

Modelled from the spec: the full Token enum declaration is not in the
source tree (the two token files present are earlier drafts). The
variants are those constructed by scanner/scanner.rs (the
full-language scanner, which is present) plus the keyword tokens the
spec lists (if/else/block/loop/break/continue/jump/print/nil/true/
false). Payloads follow the spec data model. -/

inductive Token where
  | lparen
  | rparen
  | lbracket
  | rbracket
  | colon
  | comma
  | nil
  | boolTrue
  | boolFalse
  | int (value : Int)
  | float (repr : String)
  | str (s : String)
  | formatStr (parts : List String)
  | equal
  | star
  | slash
  | plus
  | minus
  | bang
  | dot
  | percent
  | caret
  | ampersand
  | pipe
  | equalEqualEqual
  | equalEqual
  | notEqual
  | lessThan
  | lessThanOrEqual
  | greaterThan
  | greaterThanOrEqual
  | and
  | or
  | doubleStar
  | doubleSlash
  | bangBang
  | loopFeed
  | range
  | rangeInclusive
  | mulEqual
  | divEqual
  | plusEqual
  | minusEqual
  | funcStart
  | scopeStart
  | scopeEnd
  | inlineScopeStart
  | inlineScopeEnd
  | endOfStatement
  | endOfInput
  | ident (name : String)
  | typeIdent (name : String)
  | typeMethodIdent (name : String)
  | specialMethodIdent (name : String)
  | labelTok (name : String)
  | blockKw
  | ifKw
  | elseKw
  | loopKw
  | breakKw
  | continueKw
  | jumpKw
  | printKw

/-! ## Operator precedence (parser/precedence.rs) -/

/-- `get_operator_precedence`: the unary and binary precedence of a
token, 0 meaning "not an operator of that kind". -/
def getOperatorPrecedence : Token → Nat × Nat
  | .equal => (0, 1)
  | .minusEqual => (0, 1)
  | .plusEqual => (0, 1)
  | .or => (0, 3)
  | .and => (0, 4)
  | .equalEqualEqual => (0, 5)
  | .equalEqual => (0, 5)
  | .notEqual => (0, 5)
  | .lessThan => (0, 5)
  | .lessThanOrEqual => (0, 5)
  | .greaterThan => (0, 5)
  | .greaterThanOrEqual => (0, 5)
  | .plus => (9, 6)
  | .minus => (9, 6)
  | .star => (0, 7)
  | .slash => (0, 7)
  | .doubleSlash => (0, 7)
  | .percent => (0, 7)
  | .caret => (0, 8)
  | .bangBang => (9, 0)
  | .bang => (9, 0)
  | .dot => (0, 10)
  | _ => (0, 0)

/-- `get_unary_precedence`. -/
def getUnaryPrecedence (token : Token) : Nat :=
  (getOperatorPrecedence token).1

/-- `get_binary_precedence`. -/
def getBinaryPrecedence (token : Token) : Nat :=
  (getOperatorPrecedence token).2

/-- `is_right_associative`: exactly `^` and `=`. -/
def isRightAssociative : Token → Bool
  | .caret => true
  | .equal => true
  | _ => false

/-- The precedence at which the parser fetches the right-hand side of
an infix operator (the infix loop of `Parser::expr`, parser.rs): the
binary precedence, lowered by one for a right-associative operator. -/
def rhsPrecedence (token : Token) : Nat :=
  let p := getBinaryPrecedence token
  if isRightAssociative token then p - 1 else p

/-- The specification's precedence table, stated from its words
(§4.2): binary `= += -=` at 1, `||` 3, `&&` 4, comparisons 5, `+ -` 6
(unary 9), `* / // %` 7, `^` 8, unary `! !!` 9, `.` 10; everything
else 0. This is the refinement target `getOperatorPrecedence` is
compared against. -/
def specOperatorPrecedence : Token → Nat × Nat
  | .equal | .plusEqual | .minusEqual => (0, 1)
  | .or => (0, 3)
  | .and => (0, 4)
  | .equalEqualEqual | .equalEqual | .notEqual | .lessThan
  | .lessThanOrEqual | .greaterThan | .greaterThanOrEqual => (0, 5)
  | .plus | .minus => (9, 6)
  | .star | .slash | .doubleSlash | .percent => (0, 7)
  | .caret => (0, 8)
  | .bang | .bangBang => (9, 0)
  | .dot => (0, 10)
  | _ => (0, 0)

/-- The specification's right-hand-side rule stated from its words:
`^` and `=` are right-associative and their RHS is parsed at one less
than their binary precedence (7 and 0); every other operator's RHS is
parsed at its binary precedence. -/
def specRhsPrecedence (token : Token) : Nat :=
  match token with
  | .caret => 7
  | .equal => 0
  | t => (specOperatorPrecedence t).2

/-! ## The number scanner (Scanner::read_number, scanner/scanner.rs)

The scanner is driven by a character cursor; here the unread input is
a list of characters (`peek` is the head). `read_number` is entered
from the dispatch arm `Some((c @ '0'..='9', _, _))` of
`add_tokens_to_queue` with the consumed first digit. -/

/-- `char::is_digit(radix)`: the value of a digit character, as
`to_digit` computes it. -/
def charDigitVal (c : Char) : Option Nat :=
  if '0' ≤ c ∧ c ≤ '9' then some (c.toNat - '0'.toNat)
  else if 'a' ≤ c ∧ c ≤ 'z' then some (c.toNat - 'a'.toNat + 10)
  else if 'A' ≤ c ∧ c ≤ 'Z' then some (c.toNat - 'A'.toNat + 10)
  else none

def isDigitIn (radix : Nat) (c : Char) : Bool :=
  match charDigitVal c with
  | some v => v < radix
  | none => false

/-- `Scanner::collect_digits`: consume digits of the radix, also
consuming an underscore when a digit follows it (the underscore is
dropped from the collected string). -/
def collectDigits (radix : Nat) : List Char → String × List Char
  | c :: rest =>
    if isDigitIn radix c then
      let p := collectDigits radix rest
      (c.toString ++ p.1, p.2)
    else
      match c, rest with
      | '_', d :: rest2 =>
        if isDigitIn radix d then
          let p := collectDigits radix rest2
          (d.toString ++ p.1, p.2)
        else ("", c :: rest)
      | _, _ => ("", c :: rest)
  | [] => ("", [])

/-- The result of `read_number`: the digit string with its radix, or
a Rust panic. -/
inductive ReadNumberResult where
  | ok (digits : String) (radix : Nat) (rest : List Char)
  | panicked (message : String)
deriving DecidableEq

/-- `Scanner::read_number`. The radix comes from a peek after a
leading `0`: `b/B` 2, `o/O` 8, `x/X` 16, any other ASCII alphabetic
panics with "Unsupported numeric type", anything else is base 10. For
a radix prefix the prefix character is skipped; base-10 numbers then
collect an optional fraction (`.` followed by a digit) and E-notation
with or without a sign. -/
def readNumber (firstDigit : Char) (input : List Char) : ReadNumberResult :=
  let radixRes : Except String Nat :=
    if firstDigit = '0' then
      match input.head? with
      | some 'b' | some 'B' => .ok 2
      | some 'o' | some 'O' => .ok 8
      | some 'x' | some 'X' => .ok 16
      | some t =>
        if t.isAlpha then .error ("Unsupported numeric type: " ++ t.toString)
        else .ok 10
      | none => .ok 10
    else .ok 10
  match radixRes with
  | .error message => .panicked message
  | .ok radix =>
    let (string, input) :=
      if radix = 10 then (firstDigit.toString, input)
      else ("", input.drop 1)
    let p := collectDigits radix input
    let string := string ++ p.1
    let input := p.2
    if radix = 10 then
      -- fraction: a dot followed by at least one digit
      let (string, input) :=
        match input with
        | '.' :: d :: rest =>
          if isDigitIn radix d then
            let p := collectDigits radix rest
            (string ++ "." ++ d.toString ++ p.1, p.2)
          else (string, '.' :: d :: rest)
        | other => (string, other)
      -- E notation without sign
      let (string, input) :=
        match input with
        | e :: d :: rest =>
          if (e = 'e' || e = 'E') && isDigitIn radix d then
            let p := collectDigits radix rest
            (string ++ "E+" ++ d.toString ++ p.1, p.2)
          else (string, e :: d :: rest)
        | other => (string, other)
      -- E notation with sign
      let (string, input) :=
        match input with
        | e :: s :: d :: rest =>
          if (e = 'e' || e = 'E') && (s = '+' || s = '-') && isDigitIn radix d then
            let p := collectDigits radix rest
            (string ++ "E" ++ s.toString ++ d.toString ++ p.1, p.2)
          else (string, e :: s :: d :: rest)
        | other => (string, other)
      .ok string radix input
    else
      .ok string radix input

/-! ## Chunk extension

The compiler only ever appends to the chunk and back-patches indices
inside the freshly emitted region. `chunkExtends c c'` captures this:
`c'` is `c` plus emitted instructions, and every break/continue
placeholder among them records a patch address that lies at or beyond
`c.length` (placeholders record their own index, so the loop scan
never writes into the prefix). -/

/-- Break/continue placeholders carry a patch address; it must not
point below `base`. Other instructions are unconstrained. -/
def instAddrBound (base : Nat) : Inst → Prop
  | .breakPlaceholder addr _ => base ≤ addr
  | .continuePlaceholder addr _ => base ≤ addr
  | _ => True

/-- The compiled chunk `c'` extends `c`: it appends instructions whose
placeholder patch addresses stay at or beyond the old length. -/
def chunkExtends (c c' : List Inst) : Prop :=
  ∃ ext, c' = c ++ ext ∧ ∀ inst ∈ ext, instAddrBound c.length inst

/-! # Theorems

Supporting lemmas first: scope-stack accounting for the VM, then
chunk-extension monotonicity for the compiler; then one theorem per
claim, with witnesses and counterexamples.

## Scope-stack accounting (for the C3 balance theorem)

`exit_scopes(n)` removes exactly `n` scope-stack entries on success;
no other part of a step changes the scope stack except the push in the
`ScopeStart` arm and in the user-function call path, which are exactly
the increments of the ghost `starts` counter. -/

theorem exitScopes_scopeLen {count : Nat} {st st' : VmSt}
    (h : exitScopes count st = .ok st') :
    st'.scopeStack.length + count = st.scopeStack.length := by
  match count with
  | 0 =>
    simp [exitScopes] at h
    simp [h]
  | 1 =>
    simp only [exitScopes] at h
    norm_num at h
    split at h
    · cases h
    · rename_i size restScopes hscope
      split at h
      · cases h
        rw [hscope]
        simp
      · cases h
  | n + 2 =>
    simp only [exitScopes] at h
    norm_num at h
    split at h
    · cases h
    · rename_i st₁ hguard
      split at hguard
      · cases hguard
      · cases hguard
        split at h
        · cases h
        · rename_i size restScopes hscope
          split at h
          · cases h
            have hd : (List.drop (n + 1) st.scopeStack).length
                = restScopes.length + 1 := by
              have hc := congrArg List.length hscope
              simpa using hc
            simp only [List.length_drop] at hd
            simp only [List.length_cons]
            omega
          · cases h








theorem popObj_scope {st : VmSt} {o : Obj} {st' : VmSt}
    (h : st.popObj = .ok (o, st')) : st'.scopeStack = st.scopeStack := by
  unfold VmSt.popObj at h
  split at h
  · cases h
  · simp only [Except.map] at h
    split at h
    · cases h
    · cases h
      rfl

theorem popNObjs_scope {st : VmSt} {n : Nat} {objs : List Obj} {st' : VmSt}
    (h : st.popNObjs n = .ok (objs, st')) : st'.scopeStack = st.scopeStack := by
  unfold VmSt.popNObjs at h
  split at h
  · cases h
  · simp only [Except.map] at h
    split at h
    · cases h
    · cases h
      rfl

theorem execStep_balance {inst : Inst} {ip : Nat} {st : VmSt} {c : Counts}
    {out : StepOut} (h : execStep inst ip st c = .ok out) :
    (out.stC).1.scopeStack.length + (out.stC).2.exits + c.starts
      = st.scopeStack.length + (out.stC).2.starts + c.exits := by
  cases inst
  all_goals simp only [execStep, execStep.bindMath, execStep.bindBool] at h
  all_goals repeat' (split at h)
  all_goals try cases h
  all_goals simp only [StepOut.stC]
  all_goals try omega
  all_goals repeat rw [popObj_scope (by assumption)]
  all_goals repeat rw [popNObjs_scope (by assumption)]
  all_goals try (
    have hE := exitScopes_scopeLen (by assumption : exitScopes _ _ = Except.ok _))
  all_goals try simp
  all_goals omega

theorem checkCallArgs_scope {st : VmSt} {name : String}
    {params : Option (List String)} {args : List Obj} {bind : Bool}
    {st' : VmSt} (h : checkCallArgs st name params args bind = .ok st') :
    st'.scopeStack = st.scopeStack := by
  unfold checkCallArgs at h
  split at h
  all_goals split_ifs at h
  all_goals try (cases h; rfl)
  all_goals try simp at h
  all_goals rename_i pv ps hb
  all_goals by_cases hA : args.length = ps.length
  all_goals try (rw [if_pos hA] at h; rw [← Except.ok.inj h])
  all_goals try (rw [if_neg hA] at h; simp at h)

theorem execute_scope_balance :
    ∀ (fuel : Nat) (chunk : List Inst) (ip : Nat) (st : VmSt) (c : Counts)
      (s : VMRunState) (st' : VmSt) (c' : Counts),
      execute fuel chunk ip st c = .ok s st' c' →
      st'.scopeStack.length + c'.exits + c.starts
        = st.scopeStack.length + c'.starts + c.exits := by
  intro fuel
  induction fuel with
  | zero =>
    intro chunk ip st c s st' c' h
    simp [execute] at h
  | succ fuel ih =>
    intro chunk ip st c s st' c' h
    rw [execute] at h
    split at h
    · cases h
    · -- Call arm
      repeat' (split at h)
      all_goals try cases h
      · -- builtin call ending the chunk
        have hChk := checkCallArgs_scope (by assumption : checkCallArgs _ _ _ _ _ = Except.ok _)
        have hPop := popNObjs_scope (by assumption : VmSt.popNObjs _ _ = Except.ok _)
        simp only [hChk, hPop]
        omega
      · -- builtin call, execution continues
        have hChk := checkCallArgs_scope (by assumption : checkCallArgs _ _ _ _ _ = Except.ok _)
        have hPop := popNObjs_scope (by assumption : VmSt.popNObjs _ _ = Except.ok _)
        have hrec := ih _ _ _ _ _ _ _ h
        have h1 := congrArg List.length hChk
        have h2 := congrArg List.length hPop
        simp at hrec
        omega
      · -- user function call ending the chunk
        simp only [] at h
        split at h
        · cases h
        · rename_i st₃ heqChk
          split at h
          · rename_i state st₄ c₂ heqExec
            split at h
            · cases h
            · rename_i st₅ heqExit
              cases h
              have hPop := popNObjs_scope (by assumption : VmSt.popNObjs _ _ = Except.ok _)
              have hChk := checkCallArgs_scope heqChk
              have hInner := ih _ _ _ _ _ _ _ heqExec
              have hExit := exitScopes_scopeLen heqExit
              have h1 := congrArg List.length hPop
              have h2 := congrArg List.length hChk
              simp only [List.length_cons] at h1 h2 hInner ⊢
              try dsimp only at h1 h2 hInner ⊢
              try simp at h1 h2 hInner
              omega
          · cases h
          · cases h
      · -- user function call, execution continues
        simp only [] at h
        split at h
        · cases h
        · rename_i st₃ heqChk
          split at h
          · rename_i state st₄ c₂ heqExec
            split at h
            · cases h
            · rename_i st₅ heqExit
              have hPop := popNObjs_scope (by assumption : VmSt.popNObjs _ _ = Except.ok _)
              have hChk := checkCallArgs_scope heqChk
              have hInner := ih _ _ _ _ _ _ _ heqExec
              have hExit := exitScopes_scopeLen heqExit
              have hrec := ih _ _ _ _ _ _ _ h
              have h1 := congrArg List.length hPop
              have h2 := congrArg List.length hChk
              try dsimp only at h1 h2 hInner hrec ⊢
              try simp at h1 h2 hInner hrec
              omega
          · cases h
          · cases h
    · -- non-call arm
      split at h
      · cases h
      · next state st₁ c₁ heqStep =>
        cases h
        have hb := execStep_balance heqStep
        simp only [StepOut.stC] at hb
        exact hb
      · next ip₁ st₁ c₁ heqStep =>
        have hb := execStep_balance heqStep
        simp only [StepOut.stC] at hb
        split at h
        · cases h
          exact hb
        · have hrec := ih _ _ _ _ _ _ _ h
          omega

theorem chunkExtends_refl (c : List Inst) : chunkExtends c c :=
  ⟨[], by simp, by simp⟩

theorem instAddrBound_mono {b1 b2 : Nat} {inst : Inst} (hle : b1 ≤ b2)
    (h : instAddrBound b2 inst) : instAddrBound b1 inst := by
  cases inst <;> simp [instAddrBound] at h ⊢ <;> omega

theorem chunkExtends_trans {a b c : List Inst}
    (h1 : chunkExtends a b) (h2 : chunkExtends b c) : chunkExtends a c := by
  obtain ⟨e1, rfl, hb1⟩ := h1
  obtain ⟨e2, rfl, hb2⟩ := h2
  refine ⟨e1 ++ e2, by simp, ?_⟩
  intro inst hin
  rcases List.mem_append.mp hin with hm | hm
  · exact hb1 inst hm
  · exact instAddrBound_mono (by simp) (hb2 inst hm)

theorem chunkExtends_push {c c' : List Inst} {inst : Inst}
    (h : chunkExtends c c') (hb : instAddrBound c.length inst) :
    chunkExtends c (c' ++ [inst]) := by
  obtain ⟨e, rfl, hbe⟩ := h
  refine ⟨e ++ [inst], by simp, ?_⟩
  intro i hin
  rcases List.mem_append.mp hin with hm | hm
  · exact hbe i hm
  · simp at hm
    subst hm
    exact hb

theorem chunkExtends_set {c c' : List Inst} {i : Nat} {x : Inst}
    (h : chunkExtends c c') (hi : c.length ≤ i)
    (hx : instAddrBound c.length x) :
    chunkExtends c (c'.set i x) := by
  obtain ⟨e, rfl, hb⟩ := h
  refine ⟨e.set (i - c.length) x, ?_, ?_⟩
  · rw [List.set_append_right _ _ hi]
  · intro inst hin
    rcases List.mem_or_eq_of_mem_set hin with hm | hm
    · exact hb inst hm
    · subst hm
      exact hx

theorem chunkExtends_getBound {c ch : List Inst}
    (h : chunkExtends c ch) {a : Nat} (ha : c.length ≤ a) {inst : Inst}
    (hget : ch[a]? = some inst) : instAddrBound c.length inst := by
  obtain ⟨e, rfl, hb⟩ := h
  rw [List.getElem?_append_right ha] at hget
  obtain ⟨hlt, hEq⟩ := List.getElem?_eq_some.mp hget
  exact hEq ▸ hb _ (List.getElem_mem hlt)

theorem patchLoopRange_extends {c ch : List Inst}
    {loopAddr after depth : Nat} (h : chunkExtends c ch)
    (hla : c.length ≤ loopAddr) :
    chunkExtends c (patchLoopRange loopAddr after depth ch) := by
  unfold patchLoopRange
  have hmem : ∀ a ∈ List.range' loopAddr (after - loopAddr), c.length ≤ a := by
    intro a hm
    have := (List.mem_range'_1.mp hm).1
    omega
  generalize List.range' loopAddr (after - loopAddr) = addrs at hmem ⊢
  induction addrs generalizing ch with
  | nil => exact h
  | cons a rest ihr =>
    have hac : c.length ≤ a := hmem a (by simp)
    have hstep : chunkExtends c
        (match ch[a]? with
          | some (.breakPlaceholder breakAddr d) =>
            ch.set breakAddr (.jump after (d - depth))
          | some (.continuePlaceholder continueAddr d) =>
            ch.set continueAddr (.jump loopAddr (d - depth))
          | _ => ch) := by
      split
      · rename_i breakAddr d hget
        have hbd := chunkExtends_getBound h hac hget
        simp [instAddrBound] at hbd
        exact chunkExtends_set h hbd trivial
      · rename_i continueAddr d hget
        have hbd := chunkExtends_getBound h hac hget
        simp [instAddrBound] at hbd
        exact chunkExtends_set h hbd trivial
      · exact h
    simp only [List.foldl_cons]
    exact ihr hstep (fun x hx => hmem x (List.mem_cons_of_mem _ hx))

theorem chunkExtends_length_le {c c' : List Inst} (h : chunkExtends c c') :
    c.length ≤ c'.length := by
  obtain ⟨ext, rfl, -⟩ := h
  simp

theorem pushInst_chunk (v : Visitor) (i : Inst) :
    (v.pushInst i).chunk = v.chunk ++ [i] := rfl

theorem extends_push (v : Visitor) {i : Inst}
    (hb : instAddrBound v.chunk.length i) :
    chunkExtends v.chunk (v.pushInst i).chunk := by
  rw [pushInst_chunk]
  exact chunkExtends_push (chunkExtends_refl _) hb

theorem visitLiteral_extends {l : LiteralKind} {v v' : Visitor}
    (h : visitLiteral l v = .ok v') : chunkExtends v.chunk v'.chunk := by
  cases l <;> simp only [visitLiteral] at h
  case bool b => cases b <;> (cases h; exact extends_push _ trivial)
  case ellipsis => cases h; exact chunkExtends_refl _
  all_goals (cases h; exact extends_push _ trivial)

theorem foldl_set_extends {c : List Inst} {x : Inst}
    (hx : instAddrBound c.length x) :
    ∀ (addrs : List Nat), (∀ a ∈ addrs, c.length ≤ a) →
    ∀ {ch : List Inst}, chunkExtends c ch →
      chunkExtends c (addrs.foldl (fun ch a => ch.set a x) ch) := by
  intro addrs
  induction addrs with
  | nil => intro _ ch h; exact h
  | cons a rest ihr =>
    intro hb ch h
    simp only [List.foldl_cons]
    exact ihr (fun y hy => hb y (List.mem_cons_of_mem _ hy))
      (chunkExtends_set h (hb a (by simp)) hx)

theorem visitStatements_extends :
    ∀ (l : List Statement) (v : Visitor),
      ∀ v', visitStatements l v = .ok v' → chunkExtends v.chunk v'.chunk := by
  apply @visitStatements.induct
    (fun l v => ∀ v', visitStatements l v = .ok v' → chunkExtends v.chunk v'.chunk)
    (fun s v => ∀ v', visitStatement s v = .ok v' → chunkExtends v.chunk v'.chunk)
    (fun e name v => ∀ v', visitExpr e name v = .ok v' → chunkExtends v.chunk v'.chunk)
    (fun a b v => ∀ v', visitAssignment a b v = .ok v' → chunkExtends v.chunk v'.chunk)
    (fun a b v => ∀ v', visitGetAttr a b v = .ok v' → chunkExtends v.chunk v'.chunk)
    (fun params body name v => ∀ v', visitFunc params body name v = .ok v' → chunkExtends v.chunk v'.chunk)
    (fun cond body v => ∀ v', visitLoop cond body v = .ok v' → chunkExtends v.chunk v'.chunk)
    (fun b v => ∀ v', visitBlock b v = .ok v' → chunkExtends v.chunk v'.chunk)
    (fun branches default v => ∀ v', visitConditional branches default v = .ok v' → chunkExtends v.chunk v'.chunk)
    (fun l acc v => ∀ res, visitCondBranches l acc v = .ok res → chunkExtends v.chunk res.2.chunk ∧ ∀ a ∈ res.1, a ∈ acc ∨ v.chunk.length ≤ a)
    (fun l v => ∀ v', visitExprs l v = .ok v' → chunkExtends v.chunk v'.chunk)
  -- case1: empty statement list
  · intro v v' h
    simp only [visitStatements] at h
    cases h
    exact chunkExtends_refl _
  -- case2: first statement errors
  · intro s rest v e herr _ v' h
    simp only [visitStatements] at h
    split at h
    · exact Except.noConfusion h
    · rename_i w hw
      exact Except.noConfusion (herr.symm.trans hw)
  -- case3: statement then rest
  · intro s rest v v1 hok ih2 ih1 v' h
    simp only [visitStatements] at h
    split at h
    · exact Except.noConfusion h
    · rename_i w hw
      cases Except.ok.inj (hok.symm.trans hw)
      exact chunkExtends_trans (ih2 _ hok) (ih1 _ h)
  -- case4: jump statement
  · intro name v v' h
    simp only [visitStatement] at h
    cases h
    exact extends_push _ trivial
  -- case5: label whose expression errors
  · intro name e v e1 herr _ v' h
    simp only [visitStatement] at h
    split at h
    · exact Except.noConfusion h
    · rename_i w hw
      exact Except.noConfusion (herr.symm.trans hw)
  -- case6: duplicate label
  · intro name e v addr v1 hok val tree hdup ih v' h
    simp only [visitStatement] at h
    split at h
    · exact Except.noConfusion h
    · rename_i w hw
      cases Except.ok.inj (hok.symm.trans hw)
      have hdup2 : v1.scopeTree.addLabel name v.chunk.length = (some val, tree) := hdup
      simp only [hdup2] at h
      exact Except.noConfusion h
  -- case7: label added
  · intro name e v addr v1 hok tree hadd ih v' h
    simp only [visitStatement] at h
    split at h
    · exact Except.noConfusion h
    · rename_i w hw
      cases Except.ok.inj (hok.symm.trans hw)
      have hadd2 : v1.scopeTree.addLabel name v.chunk.length = (none, tree) := hadd
      simp only [hadd2] at h
      cases h
      exact ih v1 hok
  -- case8: break whose expression errors
  · intro e v e1 herr _ v' h
    simp only [visitStatement] at h
    split at h
    · exact Except.noConfusion h
    · rename_i w hw
      exact Except.noConfusion (herr.symm.trans hw)
  -- case9: break
  · intro e v v1 hok ih v' h
    simp only [visitStatement] at h
    split at h
    · exact Except.noConfusion h
    · rename_i w hw
      cases Except.ok.inj (hok.symm.trans hw)
      cases h
      exact chunkExtends_push (ih _ hok) (chunkExtends_length_le (ih _ hok))
  -- case10: continue
  · intro v v' h
    simp only [visitStatement] at h
    cases h
    exact chunkExtends_push (extends_push _ trivial)
      (show v.chunk.length ≤ (v.pushInst (.loadConst 0)).chunk.length by
        rw [pushInst_chunk]; simp)
  -- case11: expression statement
  · intro e v ih v' h
    simp only [visitStatement] at h
    exact ih _ h
  -- case12: tuple whose items error
  · intro items x v e herr _ v' h
    simp only [visitExpr] at h
    split at h
    · exact Except.noConfusion h
    · rename_i w hw
      exact Except.noConfusion (herr.symm.trans hw)
  -- case13: tuple
  · intro items x v v1 hok ih v' h
    simp only [visitExpr] at h
    split at h
    · exact Except.noConfusion h
    · rename_i w hw
      cases Except.ok.inj (hok.symm.trans hw)
      cases h
      exact chunkExtends_push (ih _ hok) trivial
  -- case14: literal
  · intro l x v v' h
    simp only [visitExpr] at h
    exact visitLiteral_extends h
  -- case15: format string whose items error
  · intro items x v e herr _ v' h
    simp only [visitExpr] at h
    split at h
    · exact Except.noConfusion h
    · rename_i w hw
      exact Except.noConfusion (herr.symm.trans hw)
  -- case16: format string
  · intro items x v v1 hok ih v' h
    simp only [visitExpr] at h
    split at h
    · exact Except.noConfusion h
    · rename_i w hw
      cases Except.ok.inj (hok.symm.trans hw)
      cases h
      exact chunkExtends_push (ih _ hok) trivial
  -- case17/18/19: identifiers
  · intro x v name v' h
    simp only [visitExpr] at h
    cases h
    exact extends_push _ trivial
  · intro x v name v' h
    simp only [visitExpr] at h
    cases h
    exact extends_push _ trivial
  · intro x v name v' h
    simp only [visitExpr] at h
    cases h
    exact extends_push _ trivial
  -- case20: block expression
  · intro b x v ih v' h
    simp only [visitExpr] at h
    exact ih _ h
  -- case21: conditional expression
  · intro branches default x v ih v' h
    simp only [visitExpr] at h
    exact ih _ h
  -- case22: loop expression
  · intro cond body x v ih v' h
    simp only [visitExpr] at h
    exact ih _ h
  -- case23: function literal
  · intro params body name v ih v' h
    simp only [visitExpr] at h
    exact ih _ h
  -- case24: call whose callable errors
  · intro callable args x v e herr _ v' h
    simp only [visitExpr] at h
    split at h
    · exact Except.noConfusion h
    · rename_i w hw
      exact Except.noConfusion (herr.symm.trans hw)
  -- case25: call whose arguments error
  · intro callable args x v v1 hok e herr ih1 ih2 v' h
    simp only [visitExpr] at h
    split at h
    · exact Except.noConfusion h
    · rename_i w hw
      cases Except.ok.inj (hok.symm.trans hw)
      split at h
      · exact Except.noConfusion h
      · rename_i w2 hw2
        exact Except.noConfusion (herr.symm.trans hw2)
  -- case26: call
  · intro callable args x v v1 hok v2 hargs ih1 ih2 v' h
    simp only [visitExpr] at h
    split at h
    · exact Except.noConfusion h
    · rename_i w hw
      cases Except.ok.inj (hok.symm.trans hw)
      split at h
      · exact Except.noConfusion h
      · rename_i w2 hw2
        cases Except.ok.inj (hargs.symm.trans hw2)
        cases h
        exact chunkExtends_push
          (chunkExtends_trans (ih1 _ hok) (ih2 _ hargs)) trivial
  -- case27: unary whose operand errors
  · intro op operand x v e herr _ v' h
    simp only [visitExpr] at h
    split at h
    · exact Except.noConfusion h
    · rename_i w hw
      exact Except.noConfusion (herr.symm.trans hw)
  -- case28: unary operation
  · intro op operand x v v1 hok ih v' h
    simp only [visitExpr] at h
    split at h
    · exact Except.noConfusion h
    · rename_i w hw
      cases Except.ok.inj (hok.symm.trans hw)
      cases h
      exact chunkExtends_push (ih _ hok) trivial
  -- case29: attribute access
  · intro a b x v ih v' h
    simp only [visitExpr] at h
    exact ih _ h
  -- case30: assignment
  · intro a b x v ih v' h
    simp only [visitExpr] at h
    exact ih _ h
  -- case31: other binary, lhs errors
  · intro a op b x v e herr hd ha _ v' h
    cases op <;> try exact absurd rfl (by assumption)
    all_goals simp only [visitExpr] at h
    all_goals split at h
    all_goals try exact Except.noConfusion h
    all_goals rename_i w hw
    all_goals exact Except.noConfusion (herr.symm.trans hw)
  -- case32: other binary, rhs errors
  · intro a op b x v v1 hok e herr hd ha ih1 ih2 v' h
    cases op <;> try exact absurd rfl (by assumption)
    all_goals simp only [visitExpr] at h
    all_goals split at h
    all_goals try exact Except.noConfusion h
    all_goals rename_i w hw
    all_goals cases Except.ok.inj (hok.symm.trans hw)
    all_goals split at h
    all_goals try exact Except.noConfusion h
    all_goals rename_i w2 hw2
    all_goals exact Except.noConfusion (herr.symm.trans hw2)
  -- case33: other binary operation
  · intro a op b x v v1 hok v2 hbok hd ha ih1 ih2 v' h
    cases op <;> try exact absurd rfl (by assumption)
    all_goals simp only [visitExpr] at h
    all_goals split at h
    all_goals try exact Except.noConfusion h
    all_goals rename_i w hw
    all_goals cases Except.ok.inj (hok.symm.trans hw)
    all_goals split at h
    all_goals try exact Except.noConfusion h
    all_goals rename_i w2 hw2
    all_goals cases Except.ok.inj (hbok.symm.trans hw2)
    all_goals cases h
    all_goals exact chunkExtends_push (chunkExtends_trans (ih1 _ hok) (ih2 _ hbok)) trivial
  -- case34: assignment target invalid
  · intro nameExpr valueExpr v nameRes err herr v' h
    simp only [visitAssignment] at h
    split at h
    · exact Except.noConfusion h
    · rename_i name hV
      exact Except.noConfusion (herr.symm.trans hV)
  -- case35: assignment value errors
  · intro nameExpr valueExpr v nameRes name hname v1 e herr ih v' h
    simp only [visitAssignment] at h
    split at h
    · rename_i err2 hV
      exact Except.noConfusion (hname.symm.trans hV)
    · rename_i name2 hV
      cases Except.ok.inj (hname.symm.trans hV)
      split at h
      · exact Except.noConfusion h
      · rename_i w hw
        exact Except.noConfusion (herr.symm.trans hw)
  -- case36: assignment
  · intro nameExpr valueExpr v nameRes name hname v1 v2 hvis ih v' h
    simp only [visitAssignment] at h
    split at h
    · rename_i err2 hV
      exact Except.noConfusion (hname.symm.trans hV)
    · rename_i name2 hV
      cases Except.ok.inj (hname.symm.trans hV)
      split at h
      · exact Except.noConfusion h
      · rename_i w hw
        cases Except.ok.inj (hvis.symm.trans hw)
        cases h
        exact chunkExtends_push
          (chunkExtends_trans
            (show chunkExtends v.chunk
                (v.pushInst (Inst.declareVar name)).chunk from
              extends_push v trivial)
            (ih _ hvis)) trivial
  -- case37: attribute object errors
  · intro objExpr nameExpr v e herr _ v' h
    simp only [visitGetAttr] at h
    split at h
    · exact Except.noConfusion h
    · rename_i w hw
      exact Except.noConfusion (herr.symm.trans hw)
  -- case38: attribute name errors
  · intro objExpr nameExpr v v1 hok named e herr ihobj ihname v' h
    simp only [visitGetAttr] at h
    split at h
    · exact Except.noConfusion h
    · rename_i w hw
      cases Except.ok.inj (hok.symm.trans hw)
      split at h
      · exact Except.noConfusion h
      · rename_i w2 hw2
        exact Except.noConfusion (herr.symm.trans hw2)
  -- case39: attribute access succeeds
  · intro objExpr nameExpr v v1 hok named v2 hnamed ihobj ihname v' h
    simp only [visitGetAttr] at h
    split at h
    · exact Except.noConfusion h
    · rename_i w hw
      cases Except.ok.inj (hok.symm.trans hw)
      split at h
      · exact Except.noConfusion h
      · rename_i w2 hw2
        cases Except.ok.inj (hnamed.symm.trans hw2)
        cases h
        have hmid : chunkExtends v1.chunk v2.chunk := by
          have hn2 : (match nameExpr.isIdent with
              | some name => visitLiteral (.str name) v1
              | none =>
                match nameExpr.isTypeIdent with
                | some name => visitLiteral (.str name) v1
                | none => visitExpr nameExpr none v1) = Except.ok v2 := hnamed
          clear hnamed
          revert hn2
          cases hi : nameExpr.isIdent with
          | some name => intro hn2; exact visitLiteral_extends hn2
          | none =>
            cases ht : nameExpr.isTypeIdent with
            | some name => intro hn2; exact visitLiteral_extends hn2
            | none => intro hn2; exact ihname _ hn2
        exact chunkExtends_push
          (chunkExtends_trans (ihobj _ hok) hmid) trivial
  -- case40: function body errors
  · intro params statements name v fv0 fv e herr _ v' h
    cases name
    all_goals simp only [visitFunc] at h
    all_goals split at h
    all_goals try exact Except.noConfusion h
    all_goals rename_i w hw
    all_goals exact Except.noConfusion (herr.symm.trans hw)
  -- case41: function jump fixing errors
  · intro params statements name v fv0 fv v1 hst e hfix _ v' h
    cases name
    all_goals simp only [visitFunc] at h
    all_goals split at h
    all_goals try exact Except.noConfusion h
    all_goals rename_i w hw
    all_goals cases Except.ok.inj (hst.symm.trans hw)
    all_goals split at h
    all_goals try exact Except.noConfusion h
    all_goals rename_i w2 hw2
    all_goals exact Except.noConfusion (hfix.symm.trans hw2)
  -- case42: function compiled; the outer chunk only gains the LoadConst
  · intro params statements name v fv0 fv v1 hst v2 hfix _ v' h
    cases name
    all_goals simp only [visitFunc] at h
    all_goals split at h
    all_goals try exact Except.noConfusion h
    all_goals rename_i w hw
    all_goals cases Except.ok.inj (hst.symm.trans hw)
    all_goals split at h
    all_goals try exact Except.noConfusion h
    all_goals rename_i w2 hw2
    all_goals cases Except.ok.inj (hfix.symm.trans hw2)
    all_goals cases h
    all_goals exact chunkExtends_push (chunkExtends_refl _) trivial
  -- case43: loop with literal-true condition, body errors
  · intro cond body v htrue e herr _ v' h
    simp only [visitLoop] at h
    rw [if_pos htrue] at h
    split at h
    · exact Except.noConfusion h
    · rename_i w hw
      exact Except.noConfusion (herr.symm.trans hw)
  -- case44: loop with literal-true condition
  · intro cond body v htrue v1 hok ih v' h
    simp only [visitLoop] at h
    rw [if_pos htrue] at h
    split at h
    · exact Except.noConfusion h
    · rename_i w hw
      cases Except.ok.inj (hok.symm.trans hw)
      cases h
      have h1 : chunkExtends v.chunk v1.chunk :=
        chunkExtends_trans
          (show chunkExtends v.chunk (v.pushInst Inst.noOp).chunk from
            extends_push v trivial)
          (ih _ hok)
      exact patchLoopRange_extends (chunkExtends_push h1 trivial) le_rfl
  -- case45: loop with other condition, condition errors
  · intro cond body v hfalse e herr _ v' h
    simp only [visitLoop] at h
    rw [if_neg hfalse] at h
    split at h
    · exact Except.noConfusion h
    · rename_i w hw
      exact Except.noConfusion (herr.symm.trans hw)
  -- case46: loop with other condition, body errors
  · intro cond body v hfalse v1 hok jumpOutIndex v2 e herr ihc ihb v' h
    simp only [visitLoop] at h
    rw [if_neg hfalse] at h
    split at h
    · exact Except.noConfusion h
    · rename_i w hw
      cases Except.ok.inj (hok.symm.trans hw)
      split at h
      · exact Except.noConfusion h
      · rename_i w2 hw2
        exact Except.noConfusion (herr.symm.trans hw2)
  -- case47: loop with other condition
  · intro cond body v hfalse v1 hok jumpOutIndex v2 v3 hblk ihc ihb v' h
    simp only [visitLoop] at h
    rw [if_neg hfalse] at h
    split at h
    · exact Except.noConfusion h
    · rename_i w hw
      cases Except.ok.inj (hok.symm.trans hw)
      split at h
      · exact Except.noConfusion h
      · rename_i w2 hw2
        cases Except.ok.inj (hblk.symm.trans hw2)
        cases h
        have h1 : chunkExtends v.chunk v1.chunk := ihc _ hok
        have h2 : chunkExtends v.chunk
            (v1.pushInst (Inst.placeholder v1.chunk.length
              (Inst.jumpIfNot 0 0) "Jump-out for loop not set")).chunk :=
          chunkExtends_trans h1 (extends_push v1 trivial)
        have h3 : chunkExtends v.chunk v3.chunk :=
          chunkExtends_trans h2 (ihb _ hblk)
        exact patchLoopRange_extends
          (chunkExtends_set (chunkExtends_push h3 trivial)
            (chunkExtends_length_le h1) trivial) le_rfl
  -- case48: block whose statements error
  · intro statements v v1 e herr _ v' h
    simp only [visitBlock] at h
    split at h
    · exact Except.noConfusion h
    · rename_i w hw
      exact Except.noConfusion (herr.symm.trans hw)
  -- case49: block
  · intro statements v v1 v2 hok ih v' h
    simp only [visitBlock] at h
    split at h
    · exact Except.noConfusion h
    · rename_i w hw
      cases Except.ok.inj (hok.symm.trans hw)
      cases h
      exact chunkExtends_push
        (chunkExtends_trans
          (show chunkExtends v.chunk
              ((v.pushInst Inst.scopeStart).enterScope ScopeKind.block).chunk
            from extends_push v trivial)
          (ih _ hok)) trivial
  -- case50: conditional with default, branches error
  · intro branches v blk e herr _ v' h
    simp only [visitConditional] at h
    split at h
    · exact Except.noConfusion h
    · rename_i p hw
      exact Except.noConfusion (herr.symm.trans hw)
  -- case51: conditional whose default block errors
  · intro branches v blk p hbr e herr ihbr ihblk v' h
    simp only [visitConditional] at h
    split at h
    · exact Except.noConfusion h
    · rename_i p2 hw
      cases Except.ok.inj (hbr.symm.trans hw)
      split at h
      · exact Except.noConfusion h
      · rename_i w hw2
        exact Except.noConfusion (herr.symm.trans hw2)
  -- case52: conditional with a default block
  · intro branches v blk p hbr v2 hblk ihbr ihblk v' h
    simp only [visitConditional] at h
    split at h
    · exact Except.noConfusion h
    · rename_i p2 hw
      cases Except.ok.inj (hbr.symm.trans hw)
      split at h
      · exact Except.noConfusion h
      · rename_i w hw2
        cases Except.ok.inj (hblk.symm.trans hw2)
        cases h
        obtain ⟨hext1, hbound⟩ := ihbr p hbr
        exact foldl_set_extends
          (show instAddrBound v.chunk.length
              (Inst.jump v2.chunk.length 0) from trivial) p.1
          (fun a ha => ((hbound a ha).resolve_left (by simp)))
          (chunkExtends_trans hext1 (ihblk _ hblk))
  -- case53: conditional without default, branches error
  · intro branches v e herr _ v' h
    simp only [visitConditional] at h
    split at h
    · exact Except.noConfusion h
    · rename_i p hw
      exact Except.noConfusion (herr.symm.trans hw)
  -- case54: conditional without a default block
  · intro branches v p hbr ihbr v' h
    simp only [visitConditional] at h
    split at h
    · exact Except.noConfusion h
    · rename_i p2 hw
      cases Except.ok.inj (hbr.symm.trans hw)
      cases h
      obtain ⟨hext1, hbound⟩ := ihbr p hbr
      exact foldl_set_extends
        (show instAddrBound v.chunk.length
            (Inst.jump (p.2.pushInst (Inst.loadConst 0)).chunk.length 0)
          from trivial) p.1
        (fun a ha => ((hbound a ha).resolve_left (by simp)))
        (chunkExtends_trans hext1 (extends_push p.2 trivial))
  -- case53: no branches left
  · intro acc v res h
    simp only [visitCondBranches] at h
    cases h
    exact ⟨chunkExtends_refl _, fun a ha => Or.inl ha⟩
  -- case54: branch condition errors
  · intro e blk rest acc v e1 herr _ res h
    simp only [visitCondBranches] at h
    split at h
    · exact Except.noConfusion h
    · rename_i w hw
      exact Except.noConfusion (herr.symm.trans hw)
  -- case55: branch block errors
  · intro e blk rest acc v v1 hok jumpIndex v2 e1 herr ihc ihb res h
    simp only [visitCondBranches] at h
    split at h
    · exact Except.noConfusion h
    · rename_i w hw
      cases Except.ok.inj (hok.symm.trans hw)
      split at h
      · exact Except.noConfusion h
      · rename_i w2 hw2
        exact Except.noConfusion (herr.symm.trans hw2)
  -- case56: a branch followed by the rest
  · intro e blk rest acc v v1 hok jumpIndex v2 blockAddr v3 hblk jumpOutAddr v4 nextAddr v5 ihc ihb ihrest res h
    simp only [visitCondBranches] at h
    split at h
    · exact Except.noConfusion h
    · rename_i w hw
      cases Except.ok.inj (hok.symm.trans hw)
      split at h
      · exact Except.noConfusion h
      · rename_i w2 hw2
        cases Except.ok.inj (hblk.symm.trans hw2)
        obtain ⟨hext5, hbound5⟩ := ihrest res h
        have hA : chunkExtends v.chunk v1.chunk := ihc _ hok
        have hB : chunkExtends v.chunk
            (v1.pushInst (Inst.placeholder v1.chunk.length
              (Inst.jumpIfElse 0 0 0) "Branch condition jump not set")).chunk :=
          chunkExtends_trans hA (extends_push v1 trivial)
        have hC : chunkExtends v.chunk v3.chunk :=
          chunkExtends_trans hB (ihb _ hblk)
        have hE : chunkExtends v.chunk
            ((v3.pushInst (Inst.placeholder v3.chunk.length
                (Inst.jump 0 0) "Branch jump out not set")).chunk.set
              v1.chunk.length
              (Inst.jumpIfElse (v1.chunk.length + 1)
                (v3.pushInst (Inst.placeholder v3.chunk.length
                  (Inst.jump 0 0) "Branch jump out not set")).chunk.length 0)) :=
          chunkExtends_set (chunkExtends_push hC trivial)
            (chunkExtends_length_le hA) trivial
        constructor
        · exact chunkExtends_trans hE hext5
        · intro a ha
          rcases hbound5 a ha with hmem | hge
          · rcases List.mem_append.mp hmem with h1 | h1
            · exact Or.inl h1
            · simp at h1
              subst h1
              exact Or.inr (chunkExtends_length_le hC)
          · exact Or.inr (le_trans (chunkExtends_length_le hE) hge)
  -- case57: no expressions
  · intro v v' h
    simp only [visitExprs] at h
    cases h
    exact chunkExtends_refl _
  -- case58: first expression errors
  · intro e rest v e1 herr _ v' h
    simp only [visitExprs] at h
    split at h
    · exact Except.noConfusion h
    · rename_i w hw
      exact Except.noConfusion (herr.symm.trans hw)
  -- case59: expression then rest
  · intro e rest v v1 hok ih2 ih1 v' h
    simp only [visitExprs] at h
    split at h
    · exact Except.noConfusion h
    · rename_i w hw
      cases Except.ok.inj (hok.symm.trans hw)
      exact chunkExtends_trans (ih2 _ hok) (ih1 _ h)

/-- A successfully compiled block contributes `ScopeStart`, the
statements, `ScopeEnd` — appended to the incoming chunk. -/
theorem visitBlock_chunk_shape {body : StatementBlock} {v v1 : Visitor}
    (h : visitBlock body v = .ok v1) :
    ∃ inner, v1.chunk = v.chunk ++ [Inst.scopeStart] ++ inner ++ [Inst.scopeEnd] := by
  cases body with
  | mk statements =>
    simp only [visitBlock] at h
    split at h
    · exact Except.noConfusion h
    · rename_i w hw
      cases h
      obtain ⟨ext, hext, -⟩ := visitStatements_extends statements _ _ hw
      refine ⟨ext, ?_⟩
      show w.chunk ++ [Inst.scopeEnd] = _
      rw [hext]
      show (v.chunk ++ [Inst.scopeStart]) ++ ext ++ [Inst.scopeEnd] = _
      simp

/-- C5. `visit_loop` (compiler.rs): when the loop condition is
syntactically the literal `true`, the emitted code is exactly a `NoOp`
at the loop address, the compiled body block (`ScopeStart` … statements
… `ScopeEnd`), and a backward `Jump` to the loop address with scope-exit
count 0 — no condition evaluation and no conditional jump — followed
only by the break/continue placeholder scan over the emitted range. For
any other condition, the condition is compiled at the loop address, a
`JumpIfNot` placeholder follows it, and after the body and the backward
`Jump` the placeholder is patched to `JumpIfNot after 0` where `after`
is the address one past the loop. -/
theorem visitLoop_codegen :
    (∀ (cond : Expr) (body : StatementBlock) (v v1 : Visitor),
      cond.isTrue = true →
      visitBlock body (v.pushInst .noOp) = .ok v1 →
      (∃ inner, v1.chunk
          = v.chunk ++ [Inst.noOp, Inst.scopeStart] ++ inner ++ [Inst.scopeEnd]) ∧
      visitLoop cond body v = .ok { v1 with
        chunk := patchLoopRange v.chunk.length (v1.chunk.length + 1) v.scopeDepth
          (v1.chunk ++ [Inst.jump v.chunk.length 0]) }) ∧
    (∀ (cond : Expr) (body : StatementBlock) (v v1 v2 : Visitor),
      cond.isTrue = false →
      visitExpr cond none v = .ok v1 →
      visitBlock body (v1.pushInst (Inst.placeholder v1.chunk.length
        (Inst.jumpIfNot 0 0) "Jump-out for loop not set")) = .ok v2 →
      visitLoop cond body v = .ok { v2 with
        chunk := patchLoopRange v.chunk.length (v2.chunk.length + 1) v.scopeDepth
          ((v2.chunk ++ [Inst.jump v.chunk.length 0]).set v1.chunk.length
            (Inst.jumpIfNot (v2.chunk.length + 1) 0)) }) := by
  constructor
  · intro cond body v v1 htrue hblk
    constructor
    · obtain ⟨inner, hshape⟩ := visitBlock_chunk_shape hblk
      refine ⟨inner, ?_⟩
      rw [hshape]
      show (v.chunk ++ [Inst.noOp]) ++ [Inst.scopeStart] ++ inner ++ [Inst.scopeEnd] = _
      simp
    · simp only [visitLoop]
      rw [if_pos htrue]
      simp only [hblk]
      simp [Visitor.pushInst]
  · intro cond body v v1 v2 hfalse hcond hblk
    simp only [visitLoop]
    rw [if_neg (by simp [hfalse])]
    simp only [hcond, hblk]
    simp [Visitor.pushInst]

theorem visitLoop_codegen_witness :
    visitLoop (Expr.literal (.bool true)) (StatementBlock.mk []) (Visitor.new .default)
      = .ok { ctx := .default,
              chunk := [Inst.noOp, Inst.scopeStart, Inst.scopeEnd, Inst.jump 0 0],
              scopeTree := { nodes := [⟨.module, 0, [], []⟩, ⟨.block, 0, [], []⟩],
                             pointer := 0 },
              scopeDepth := 0, hasMain := false } ∧
    visitLoop (Expr.literal (.bool false)) (StatementBlock.mk []) (Visitor.new .default)
      = .ok { ctx := .default,
              chunk := [Inst.loadConst 2, Inst.jumpIfNot 5 0, Inst.scopeStart,
                        Inst.scopeEnd, Inst.jump 0 0],
              scopeTree := { nodes := [⟨.module, 0, [], []⟩, ⟨.block, 0, [], []⟩],
                             pointer := 0 },
              scopeDepth := 0, hasMain := false } := by
  constructor
  · have h := (visitLoop_codegen.1 (Expr.literal (.bool true)) (StatementBlock.mk [])
      (Visitor.new .default)
      { ctx := .default, chunk := [Inst.noOp, Inst.scopeStart, Inst.scopeEnd],
        scopeTree := { nodes := [⟨.module, 0, [], []⟩, ⟨.block, 0, [], []⟩],
                       pointer := 0 },
        scopeDepth := 0, hasMain := false }
      rfl
      (by simp [visitBlock, visitStatements, Visitor.pushInst, Visitor.enterScope,
        Visitor.exitScope, Visitor.new, RuntimeContext.default, ScopeTree.new,
        ScopeTree.add, ScopeTree.moveUp])).2
    exact h.trans (by rfl)
  · have h := visitLoop_codegen.2 (Expr.literal (.bool false)) (StatementBlock.mk [])
      (Visitor.new .default)
      { ctx := .default, chunk := [Inst.loadConst 2],
        scopeTree := { nodes := [⟨.module, 0, [], []⟩], pointer := 0 },
        scopeDepth := 0, hasMain := false }
      { ctx := .default,
        chunk := [Inst.loadConst 2,
          Inst.placeholder 1 (Inst.jumpIfNot 0 0) "Jump-out for loop not set",
          Inst.scopeStart, Inst.scopeEnd],
        scopeTree := { nodes := [⟨.module, 0, [], []⟩, ⟨.block, 0, [], []⟩],
                       pointer := 0 },
        scopeDepth := 0, hasMain := false }
      rfl
      (by simp [visitExpr, visitLiteral, Visitor.pushConst, Visitor.pushInst,
        Visitor.new, RuntimeContext.default, ScopeTree.new])
      (by simp [visitBlock, visitStatements, Visitor.pushInst, Visitor.enterScope,
        Visitor.exitScope, Visitor.new, RuntimeContext.default, ScopeTree.new,
        ScopeTree.add, ScopeTree.moveUp])
    exact h.trans (by rfl)

/-- C3 (amended). `VM::execute` (vm/vm.rs): on an execution that
completes normally, the scope stack shrinks or grows by exactly the
difference between the scope entries (`ScopeStart`, user-function
calls) and the scope exits (`ScopeEnd`, jump scope-exit counts,
user-function returns) taken on the path — measured by the ghost
counters. When every start pairs with an exit on the path (as in
compiler-generated block code executed to completion), the stack
returns to its pre-execution size; a `Halt` taken inside an open scope
leaves the entries in place, so the unconditional original statement
is false. -/
theorem execute_scopeStack_balance {fuel : Nat} {chunk : List Inst}
    {ip : Nat} {st : VmSt} {c : Counts} {s : VMRunState} {st' : VmSt}
    {c' : Counts} (h : execute fuel chunk ip st c = .ok s st' c') :
    st'.scopeStack.length + c'.exits + c.starts
      = st.scopeStack.length + c'.starts + c.exits :=
  execute_scope_balance fuel chunk ip st c s st' c' h

theorem execute_scopeStack_balance_witness :
    execute 3 [Inst.scopeStart, Inst.scopeEnd, Inst.halt 0] 0
        ⟨.default, [.temp .nil], []⟩ ⟨0, 0⟩
      = .ok (.halted 0) ⟨.default, [.temp .nil], []⟩ ⟨1, 1⟩ ∧
    (0 : Nat) + 1 + 0 = 0 + 1 + 0 :=
  ⟨rfl, @execute_scopeStack_balance 3 [Inst.scopeStart, Inst.scopeEnd, Inst.halt 0]
    0 ⟨.default, [.temp .nil], []⟩ ⟨0, 0⟩ (.halted 0)
    ⟨.default, [.temp .nil], []⟩ ⟨1, 1⟩ rfl⟩

theorem execute_scopeStack_counterexample :
    execute 2 [Inst.scopeStart, Inst.halt 0] 0 ⟨.default, [], []⟩ ⟨0, 0⟩
      = .ok (.halted 0)
          ⟨{ constants := [Obj.nil, Obj.bool true, Obj.bool false],
             namespaces := [[], []] }, [], [0]⟩ ⟨1, 0⟩ ∧
    ([0] : List Nat).length ≠ ([] : List Nat).length :=
  ⟨rfl, by decide⟩

/-- C2 (amended). The `HaltTop` arm of `VM::execute` (vm/vm.rs) pops
the top of the value stack; an `Int` whose value fits in `u8` (0–255)
becomes the exit code and any other `Int` yields 255
(`int.to_u8().unwrap_or(255)` — saturation to 255, not truncation
modulo 256); a non-`Int` value halts with exit code 0. -/
theorem haltTop_exit_code {st : VmSt} {obj : Obj} {st' : VmSt} {ip : Nat}
    {c : Counts} (h : st.popObj = .ok (obj, st')) :
    execStep .haltTop ip st c = .ok (.done (.halted
      (match obj.intVal with
       | some z => if 0 ≤ z ∧ z ≤ 255 then z.toNat else 255
       | none => 0)) st' c) := by
  simp only [execStep, h]
  cases obj.intVal <;> rfl

theorem haltTop_exit_code_witness :
    VmSt.popObj ⟨.default, [.temp (.int 7)], []⟩
      = .ok (.int 7, ⟨.default, [], []⟩) ∧
    execStep .haltTop 0 ⟨.default, [.temp (.int 7)], []⟩ ⟨0, 0⟩
      = .ok (.done (.halted 7) ⟨.default, [], []⟩ ⟨0, 0⟩) :=
  ⟨rfl, @haltTop_exit_code ⟨.default, [.temp (.int 7)], []⟩ (.int 7)
    ⟨.default, [], []⟩ 0 ⟨0, 0⟩ rfl⟩

theorem haltTop_truncation_counterexample :
    execute 1 [Inst.haltTop] 0 ⟨.default, [.temp (.int 300)], []⟩ ⟨0, 0⟩
      = .ok (.halted 255) ⟨.default, [], []⟩ ⟨0, 0⟩ ∧
    (255 : Nat) ≠ 300 % 256 :=
  ⟨rfl, by decide⟩

/-- C4. `Int::as_bool` (types/int.rs) returns
`Ok(self.value().is_zero())`: an `Int` is truthy exactly when its
value is zero, the inverse of the conventional rule. Observably, a
`JumpIfElse` on an `Int` condition takes the if-branch exactly for
value 0 (here: `0` halts 7 through the if-arm, `3` halts 9 through the
else-arm). -/
theorem int_asBool_inverted :
    (∀ z : Int, (Obj.int z).asBool = .ok (decide (z = 0)) ∧
        ((Obj.int z).asBool = .ok true ↔ z = 0)) ∧
    execute 2 [Inst.jumpIfElse 1 2 0, Inst.halt 7, Inst.halt 9] 0
        ⟨.default, [.temp (.int 0)], []⟩ ⟨0, 0⟩
      = .ok (.halted 7) ⟨.default, [], []⟩ ⟨0, 0⟩ ∧
    execute 2 [Inst.jumpIfElse 1 2 0, Inst.halt 7, Inst.halt 9] 0
        ⟨.default, [.temp (.int 3)], []⟩ ⟨0, 0⟩
      = .ok (.halted 9) ⟨.default, [], []⟩ ⟨0, 0⟩ :=
  ⟨fun z => ⟨rfl, by simp [Obj.asBool]⟩, rfl, rfl⟩

/-- C1. `Visitor::visit_func` (compiler.rs line 355) *assigns*
`has_main` (`self.has_main = name == "$main" && in_global_scope`) on
every named function it visits, instead of or-ing it in. A module that
assigns `$main` and afterwards assigns any other named function at
module scope therefore finalizes with `Halt 0` — not the
`LoadVar "$main" … Call 2 … HaltTop` sequence the claim requires
whenever an assignment to `$main` occurred — while the same module
without the second assignment does end with `HaltTop`. -/
theorem hasMain_overwritten_by_later_func :
    (compile ⟨[Statement.expr (Expr.binaryOp (.ident (.specialIdent "$main"))
        .assign (.func [] (.mk []))),
      Statement.expr (Expr.binaryOp (.ident (.ident "f"))
        .assign (.func [] (.mk [])))]⟩ .default).map (fun p => p.1.getLast?)
      = .ok (some (Inst.halt 0)) ∧
    (compile ⟨[Statement.expr (Expr.binaryOp (.ident (.specialIdent "$main"))
        .assign (.func [] (.mk [])))]⟩ .default).map (fun p => p.1.getLast?)
      = .ok (some Inst.haltTop) := by
  constructor <;>
    simp [compile, visitProgram, visitStatements, visitStatement, visitExpr,
      visitLiteral, visitAssignment, visitFunc, Visitor.new, Visitor.fixJumps,
      fixJumpsScopes, fixJumpList, ScopeTree.new, ScopeTree.inGlobalScope,
      Visitor.pushInst, Visitor.pushConst, Visitor.addConst,
      RuntimeContext.default, RuntimeContext.addConst, Visitor.enterScope,
      Visitor.exitScope, ScopeTree.add, ScopeTree.moveUp, Expr.isIdent,
      Expr.isSpecialIdent, List.getLast?, Except.map]

/-- C7 (amended). `Visitor::visit_literal` (compiler.rs): the
`Kind::Ellipsis` arm is `()` under a TODO comment — it emits no
instruction and raises no error, so a program containing an `Ellipsis`
literal compiles silently (here: to the bare `Halt 0` module epilogue)
rather than reporting `UnhandledExpr`. -/
theorem ellipsis_compiles_silently :
    (∀ v : Visitor, visitLiteral .ellipsis v = .ok v) ∧
    (∀ (v : Visitor) (name : Option String),
      visitExpr (.literal .ellipsis) name v = .ok v) ∧
    (compile ⟨[Statement.expr (.literal .ellipsis),
        Statement.expr (.literal .ellipsis)]⟩ .default).map (fun p => p.1)
      = .ok [Inst.halt 0] := by
  refine ⟨fun v => rfl, fun v name => ?_, ?_⟩
  · simp [visitExpr, visitLiteral]
  · simp [compile, visitProgram, visitStatements, visitStatement, visitExpr,
      visitLiteral, Visitor.new, Visitor.fixJumps, fixJumpsScopes, fixJumpList,
      ScopeTree.new, Visitor.pushInst, RuntimeContext.default, Except.map]

theorem ellipsis_counterexample :
    compile ⟨[Statement.expr (.literal .ellipsis)]⟩ .default
      = .ok ([Inst.halt 0], .default) := by
  simp [compile, visitProgram, visitStatements, visitStatement, visitExpr,
    visitLiteral, Visitor.new, Visitor.fixJumps, fixJumpsScopes, fixJumpList,
    ScopeTree.new, Visitor.pushInst, RuntimeContext.default, Except.map]

/-- C10. `Scanner::read_number` (scanner/scanner.rs): a literal
starting `0` followed by an ASCII alphabetic that is no radix prefix
panics ("Unsupported numeric type") instead of producing a `ScanErr`
with a location — scanning is not total (input `0z1`). Radix prefixes
and plain decimals scan normally. -/
theorem read_number_panics_on_0z :
    readNumber '0' ['z', '1']
      = .panicked ("Unsupported numeric type: " ++ "z") ∧
    readNumber '0' ['x', '1', 'f'] = .ok "1f" 16 [] ∧
    readNumber '1' ['2'] = .ok "12" 10 [] :=
  ⟨rfl, rfl, rfl⟩

/-- C9. `get_operator_precedence` and `is_right_associative`
(parser/precedence.rs) against the specification table: every token
has exactly the spec's unary and binary precedence, the parser's
right-hand-side precedence (the infix loop of `Parser::expr`,
parser.rs, lowering by one for right-associative operators) matches
the spec rule, and exactly `^` and `=` are right-associative. -/
theorem precedence_matches_spec :
    ∀ t : Token,
      getOperatorPrecedence t = specOperatorPrecedence t ∧
      rhsPrecedence t = specRhsPrecedence t ∧
      (isRightAssociative t = true ↔ (t = .caret ∨ t = .equal)) := by
  intro t
  refine ⟨?_, ?_, ?_⟩ <;> cases t <;>
    simp [getOperatorPrecedence, specOperatorPrecedence, rhsPrecedence,
      specRhsPrecedence, isRightAssociative, getBinaryPrecedence]

/-- C6 (amended). `VM::handle_call` / `VM::check_call_args` (vm/vm.rs):
`Call(n)` pops exactly `n + 1` value-stack entries (the callable,
pushed first and so deepest, then the `n` arguments). For a built-in
callable, `check_call_args` runs with `bind = false`: with a fixed
parameter list an arity mismatch raises `TypeErr`, and otherwise the
state is returned unchanged — in particular the arguments are *not*
packed into a `$args` tuple for built-ins (that binding happens only
with `bind = true`, on user-function calls). The native result (or
nil) is pushed as a `ReturnVal` entry. -/
theorem call_builtin_semantics :
    (∀ (st : VmSt) (name : String) (params : Option (List String))
       (args : List Obj),
      checkCallArgs st name params args false = .ok st ∨
      ∃ msg, checkCallArgs st name params args false
        = .error (.runtime (.typeErr msg))) ∧
    (∀ (st : VmSt) (name : String) (ps : List String) (args : List Obj),
      args.length ≠ ps.length →
      ∃ msg, checkCallArgs st name (some ps) args false
        = .error (.runtime (.typeErr msg))) ∧
    (∀ (fuel n : Nat) (st st1 : VmSt) (name : String)
       (params : Option (List String)) (implId : Nat) (args : List Obj),
      st.popNObjs (n + 1) = .ok (Obj.builtinFunc name params implId :: args, st1) →
      checkCallArgs st1 name params args false = .ok st1 →
      execute (fuel + 1) [Inst.call n] 0 st ⟨0, 0⟩
        = .ok .idle
          { st1 with
            valueStack := ValueStackKind.returnVal
              ((callNative implId args).getD .nil) :: st1.valueStack }
          ⟨0, 0⟩ ∧
      st1.valueStack = st.valueStack.drop (n + 1)) := by
  refine ⟨?_, ?_, ?_⟩
  · intro st name params args
    cases params with
    | none => left; simp [checkCallArgs]
    | some ps =>
      by_cases harity : args.length = ps.length
      · left; simp [checkCallArgs, harity]
      · right
        refine ⟨name ++ "() expected " ++ toString ps.length ++ " arg" ++
          (if ps.length = 1 then "" else "s") ++ "; got " ++
          toString args.length, ?_⟩
        simp [checkCallArgs, harity]
  · intro st name ps args h
    refine ⟨name ++ "() expected " ++ toString ps.length ++ " arg" ++
      (if ps.length = 1 then "" else "s") ++ "; got " ++ toString args.length, ?_⟩
    simp [checkCallArgs, h]
  · intro fuel n st st1 name params implId args hpop hchk
    constructor
    · simp only [execute, List.getElem?_cons_zero, hpop, hchk]
      rfl
    · unfold VmSt.popNObjs at hpop
      split at hpop
      · exact Except.noConfusion hpop
      · rename_i kinds rest hsp
        unfold stackPopN at hsp
        split at hsp
        · cases hsp
          simp only [Except.map] at hpop
          split at hpop
          · exact Except.noConfusion hpop
          · cases hpop
            rfl
        · exact Option.noConfusion hsp

theorem call_builtin_semantics_witness :
    VmSt.popNObjs
        ⟨.default, [.temp (.int 5), .temp (.builtinFunc "echo" none 1)], []⟩ 2
      = .ok ([.builtinFunc "echo" none 1, .int 5], ⟨.default, [], []⟩) ∧
    execute 1 [Inst.call 1] 0
        ⟨.default, [.temp (.int 5), .temp (.builtinFunc "echo" none 1)], []⟩ ⟨0, 0⟩
      = .ok .idle ⟨.default, [.returnVal (.tuple [.int 5])], []⟩ ⟨0, 0⟩ :=
  ⟨rfl,
    (call_builtin_semantics.2.2 0 1
      ⟨.default, [.temp (.int 5), .temp (.builtinFunc "echo" none 1)], []⟩
      ⟨.default, [], []⟩ "echo" none 1 [.int 5] rfl rfl).1⟩

theorem call_builtin_counterexample :
    execute 1 [Inst.call 1] 0
        ⟨.default, [.temp (.int 5), .temp (.builtinFunc "echo" none 1)], []⟩ ⟨0, 0⟩
      = .ok .idle ⟨.default, [.returnVal (.tuple [.int 5])], []⟩ ⟨0, 0⟩ ∧
    RuntimeContext.default.getVarDepth "$args"
      = .error (.nameErr ("name not found: " ++ "$args")) :=
  ⟨rfl, rfl⟩

theorem nsGetVar_insert (name : String) (obj : Obj) :
    ∀ ns : NamespaceM, nsGetVar (nsInsert ns name obj) name = some obj := by
  intro ns
  unfold nsInsert
  split
  · rename_i hany
    unfold nsGetVar
    revert hany
    induction ns with
    | nil => intro hany; simp at hany
    | cons q rest ih =>
      intro hany
      by_cases hq : q.1 = name
      · simp [List.find?, hq]
      · simp only [List.map_cons, if_neg hq]
        rw [List.find?_cons_of_neg _ (by simp [hq])]
        apply ih
        simp only [List.any_cons, Bool.or_eq_true] at hany
        rcases hany with h | h
        · exact absurd (by simpa using h) hq
        · exact h
  · simp [nsGetVar, List.find?]

theorem any_of_nsGetVar_isSome {ns : NamespaceM} {name : String}
    (h : (nsGetVar ns name).isSome = true) :
    ns.any (fun p => p.1 = name) = true := by
  rw [List.any_eq_true]
  unfold nsGetVar at h
  cases hf : List.find? (fun p => decide (p.1 = name)) ns with
  | none => rw [hf] at h; simp at h
  | some q =>
    have hq : decide (q.1 = name) = true := by
      have h2 := List.find?_some hf
      simpa using h2
    exact ⟨q, List.mem_of_find?_eq_some hf, hq⟩

/-- C8. The `DeclareVar`/`AssignVar`/`LoadVar` arms of `VM::execute`
(vm/vm.rs) with `Namespace::add_var`/`set_var`/`get_var`
(types/namespace.rs): in any state whose context has at least one
namespace, `DeclareVar x` ensures `x` exists in the innermost
namespace (creating it bound to nil only if absent there), `AssignVar x`
pops the pushed value and stores it at depth 0 (the innermost
namespace, which now binds `x` regardless of enclosing bindings),
pushing a `Var(0, x)` entry, and `LoadVar x` resolves `x` at depth 0
and pushes another `Var(0, x)` entry — whose resolution is exactly the
assigned object. -/
theorem declare_assign_load :
    ∀ (x : String) (obj : Obj) (ctx : RuntimeContext)
      (vs : List ValueStackKind) (ss : List Nat) (ip1 ip2 ip3 : Nat)
      (c : Counts),
      ctx.namespaces ≠ [] →
      ∃ ctxd ctx' : RuntimeContext,
        execStep (.declareVar x) ip1 ⟨ctx, .temp obj :: vs, ss⟩ c
          = .ok (.goto (ip1 + 1) ⟨ctxd, .temp obj :: vs, ss⟩ c) ∧
        execStep (.assignVar x) ip2 ⟨ctxd, .temp obj :: vs, ss⟩ c
          = .ok (.goto (ip2 + 1) ⟨ctx', .var 0 x :: vs, ss⟩ c) ∧
        execStep (.loadVar x) ip3 ⟨ctx', .var 0 x :: vs, ss⟩ c
          = .ok (.goto (ip3 + 1) ⟨ctx', .var 0 x :: .var 0 x :: vs, ss⟩ c) ∧
        VmSt.getObj ⟨ctx', .var 0 x :: .var 0 x :: vs, ss⟩ (.var 0 x)
          = .ok obj := by
  intro x obj ctx vs ss ip1 ip2 ip3 c hns
  obtain ⟨ns, rest, hc⟩ : ∃ ns rest, ctx.namespaces = ns :: rest := by
    cases h : ctx.namespaces with
    | nil => exact absurd h hns
    | cons a b => exact ⟨a, b, rfl⟩
  by_cases hp : (nsGetVar ns x).isSome = true
  · refine ⟨ctx, { ctx with namespaces := nsInsert ns x obj :: rest },
      ?_, ?_, ?_, ?_⟩
    · simp [execStep, RuntimeContext.getVarInCurrentNamespace, hc, hp]
    · have hany := any_of_nsGetVar_isSome hp
      simp [execStep, VmSt.popObj, VmSt.getObj, Except.map,
        RuntimeContext.assignVar, RuntimeContext.assignVarAtDepth, hc,
        List.findIdx?_cons, hp, nsSetVar, hany]
    · simp [execStep, RuntimeContext.getVarDepth, List.findIdx?_cons,
        nsGetVar_insert]
    · simp [VmSt.getObj, RuntimeContext.getVarAtDepth, nsGetVar_insert,
        Except.mapError]
  · have hp2 : (nsGetVar (nsAddVar ns x) x).isSome = true := by
      simp [nsAddVar, nsGetVar_insert]
    have hany := any_of_nsGetVar_isSome hp2
    refine ⟨{ ctx with namespaces := nsAddVar ns x :: rest },
      { ctx with namespaces := nsInsert (nsAddVar ns x) x obj :: rest },
      ?_, ?_, ?_, ?_⟩
    · simp [execStep, RuntimeContext.getVarInCurrentNamespace,
        RuntimeContext.declareVar, hc, hp]
    · simp [execStep, VmSt.popObj, VmSt.getObj, Except.map,
        RuntimeContext.assignVar, RuntimeContext.assignVarAtDepth,
        List.findIdx?_cons, hp2, nsSetVar, hany]
    · simp [execStep, RuntimeContext.getVarDepth, List.findIdx?_cons,
        nsGetVar_insert]
    · simp [VmSt.getObj, RuntimeContext.getVarAtDepth, nsGetVar_insert,
        Except.mapError]

theorem declare_assign_load_witness :
    RuntimeContext.default.namespaces ≠ [] ∧
    (∃ ctxd ctx' : RuntimeContext,
      execStep (.declareVar "x") 0 ⟨.default, [.temp (.int 42)], []⟩ ⟨0, 0⟩
        = .ok (.goto 1 ⟨ctxd, [.temp (.int 42)], []⟩ ⟨0, 0⟩) ∧
      execStep (.assignVar "x") 1 ⟨ctxd, [.temp (.int 42)], []⟩ ⟨0, 0⟩
        = .ok (.goto 2 ⟨ctx', [.var 0 "x"], []⟩ ⟨0, 0⟩) ∧
      execStep (.loadVar "x") 2 ⟨ctx', [.var 0 "x"], []⟩ ⟨0, 0⟩
        = .ok (.goto 3 ⟨ctx', [.var 0 "x", .var 0 "x"], []⟩ ⟨0, 0⟩) ∧
      VmSt.getObj ⟨ctx', [.var 0 "x", .var 0 "x"], []⟩ (.var 0 "x")
        = .ok (.int 42)) ∧
    execute 3 [Inst.declareVar "x", Inst.assignVar "x", Inst.loadVar "x"] 0
        ⟨.default, [.temp (.int 42)], []⟩ ⟨0, 0⟩
      = .ok .idle
          ⟨{ constants := [Obj.nil, Obj.bool true, Obj.bool false],
             namespaces := [[("x", Obj.int 42)]] },
           [.var 0 "x", .var 0 "x"], []⟩ ⟨0, 0⟩ :=
  ⟨by simp [RuntimeContext.default],
   declare_assign_load "x" (.int 42) .default [] [] 0 1 2 ⟨0, 0⟩
     (by simp [RuntimeContext.default]),
   rfl⟩

end Feint
